import Mathlib

/-!
Verification development for the xhs-recipe repository.

The JavaScript sources are shallowly embedded in Lean:
strings are modelled as `List Char` (`Str`) with structural operations
mirroring the JavaScript string primitives, JSON-like JavaScript values as
the mutual inductive `Json`, asynchronous external calls (MCP tool calls,
`listTools`, HTTP redirect resolution, `JSON.parse`, WHATWG `URL` parsing,
OpenAI completions) as oracle functions carried in environment records, and
the module-level mutable state of each service as explicit state records
threaded through the operations.
-/

/-- JavaScript strings are modelled as lists of characters. -/
abbrev Str := List Char

/-- Embed a Lean string literal into the model. -/
def S (s : String) : Str := s.data

/-- ASCII lower-casing of one character (as in `String.prototype.toLowerCase`
restricted to the ASCII range, which is all the source ever compares). -/
def lowChar (c : Char) : Char :=
  if 'A' ≤ c && c ≤ 'Z' then Char.ofNat (c.toNat + 32) else c

/-- `s.toLowerCase()` on the modelled strings. -/
def lower (s : Str) : Str := s.map lowChar

/-- `a.startsWith(b)` / anchored prefix test. -/
def listIsPrefixOf : Str → Str → Bool
  | [], _ => true
  | _ :: _, [] => false
  | a :: as, b :: bs => a = b && listIsPrefixOf as bs

/-- `s.includes(sub)` (JavaScript substring containment). -/
def containsSub (sub : Str) : Str → Bool
  | [] => listIsPrefixOf sub []
  | s@(_ :: t) => listIsPrefixOf sub s || containsSub sub t

/-- The whitespace class trimmed by `String.prototype.trim`. -/
def jsWhitespace (c : Char) : Bool :=
  c = ' ' || c = '\t' || c = '\n' || c = '\r'

/-- `s.trim()`. -/
def trimStr (s : Str) : Str :=
  ((s.dropWhile jsWhitespace).reverse.dropWhile jsWhitespace).reverse

/-- `s.split(c)` for a one-character separator (accumulator version). -/
def splitOnCharGo (c : Char) : Str → Str → List Str
  | [], acc => [acc.reverse]
  | x :: xs, acc =>
    if x = c then acc.reverse :: splitOnCharGo c xs []
    else splitOnCharGo c xs (x :: acc)

/-- `s.split(c)` for a one-character separator. -/
def splitOnChar (c : Char) (s : Str) : List Str := splitOnCharGo c s []

/-- The substring after the first occurrence of `c`
(`s.slice(s.indexOf(c) + 1)`); `none` when `c` does not occur. -/
def afterFirstChar (c : Char) : Str → Option Str
  | [] => none
  | x :: xs => if x = c then some xs else afterFirstChar c xs

/-- The decimal digit character for `n < 10`. -/
def digitChar (n : Nat) : Char := Char.ofNat (48 + n)

/-- Decimal digits of a natural number, fuel-bounded so that the kernel can
evaluate it (the fuel `n + 1` always suffices). -/
def natDigitsGo : Nat → Nat → List Char
  | 0, _ => []
  | fuel + 1, n =>
    if n < 10 then [digitChar n]
    else natDigitsGo fuel (n / 10) ++ [digitChar (n % 10)]

/-- Decimal rendering of a natural number, as produced by a JavaScript
template literal for a non-negative integer. -/
def natToStr (n : Nat) : Str := natDigitsGo (n + 1) n

/-- Decimal rendering of an integer. -/
def intToStr (n : Int) : Str :=
  if n < 0 then '-' :: natToStr (-n).toNat else natToStr n.toNat

mutual
/-- JavaScript values, as far as the sources inspect them.  `null` stands for
both `null` and `undefined` (the source only ever distinguishes them through
truthiness and nullish tests, which agree on the two). -/
inductive Json where
  | null : Json
  | boolV (b : Bool) : Json
  | num (n : Int) : Json
  | str (s : Str) : Json
  | arr (xs : JsonList) : Json
  | obj (fields : JsonFields) : Json
  deriving DecidableEq

/-- Spine of a JavaScript array value. -/
inductive JsonList where
  | nil : JsonList
  | cons (hd : Json) (tl : JsonList) : JsonList
  deriving DecidableEq

/-- Fields of a JavaScript object value, in insertion order. -/
inductive JsonFields where
  | nil : JsonFields
  | cons (key : Str) (val : Json) (tl : JsonFields) : JsonFields
  deriving DecidableEq
end

instance : Inhabited Json := ⟨Json.null⟩

instance : Inhabited JsonList := ⟨JsonList.nil⟩

instance : Inhabited JsonFields := ⟨JsonFields.nil⟩

/-- Convert an array spine to a Lean list. -/
def JsonList.toList : JsonList → List Json
  | .nil => []
  | .cons x xs => x :: xs.toList

/-- First field with the given key (object property lookup). -/
def lookupField : JsonFields → Str → Json
  | .nil, _ => .null
  | .cons k v tl, key => if k = key then v else lookupField tl key

/-- `v?.k` — property access; non-objects yield `undefined` (modelled `null`). -/
def getField (v : Json) (k : Str) : Json :=
  match v with
  | .obj fs => lookupField fs k
  | _ => .null

/-- JavaScript truthiness. -/
def truthy : Json → Bool
  | .null => false
  | .boolV b => b
  | .num n => n ≠ 0
  | .str s => !s.isEmpty
  | .arr _ => true
  | .obj _ => true

/-- `typeof v === "object"` (true for objects, arrays and `null`). -/
def isObjLike : Json → Bool
  | .arr _ => true
  | .obj _ => true
  | .null => true
  | _ => false

/-- `a || b`. -/
def jsOrJ (a b : Json) : Json := if truthy a then a else b

mutual
/-- `String(array)` = `array.join(",")`, elementwise stringification;
fuel-free helper for the array case (well-founded recursion). -/
def jsArrStr : JsonList → Str
  | .nil => []
  | .cons x .nil => jsElemStr x
  | .cons x (.cons y ys) => jsElemStr x ++ ',' :: jsArrStr (.cons y ys)

/-- Stringification of one array element: `null`/`undefined` join as empty. -/
def jsElemStr : Json → Str
  | .null => []
  | .boolV true => S "true"
  | .boolV false => S "false"
  | .num n => intToStr n
  | .str s => s
  | .arr xs => jsArrStr xs
  | .obj _ => S "[object Object]"
end

/-- `String(v)` — JavaScript string conversion.  Non-recursive dispatch so
that the common (non-array) cases evaluate definitionally. -/
def jsStringOf : Json → Str
  | .null => S "null"
  | .boolV true => S "true"
  | .boolV false => S "false"
  | .num n => intToStr n
  | .str s => s
  | .arr xs => jsArrStr xs
  | .obj _ => S "[object Object]"

/-- `String(v ?? "")` — the nullish-guarded conversion used by the source. -/
def jsStringOfNullish : Json → Str
  | .null => []
  | v => jsStringOf v

namespace Xhs

/-! ## Embedding of the MCP client (`createXhsClient` module) -/

def CACHE_TTL_MS : Nat := 30 * 60 * 1000

def CACHE_MAX_ENTRIES : Nat := 60

/-- The relevant pieces of a WHATWG `URL` object: query parameters in order,
the path, and the fragment (including its leading `#` when present). -/
structure UrlObj where
  searchParams : List (Str × Str)
  pathname : Str
  hash : Str

/-- `searchParams.get(k)` — first value for the key, or `null`. -/
def spGet (sp : List (Str × Str)) (k : Str) : Option Str :=
  (sp.find? (fun p => p.1 = k)).map Prod.snd

/-- `a || b` on nullable strings: keep `a` unless it is `null` or empty. -/
def orFalsy (a b : Option Str) : Option Str :=
  match a with
  | some s => if s.isEmpty then b else some s
  | none => b

/-- `extractFromHash(urlObj, key)`: the query parameters inside the fragment.
`parseQuery` is the external `URLSearchParams` parser. -/
def extractFromHash (parseQuery : Str → List (Str × Str)) (u : UrlObj)
    (key : Str) : Option Str :=
  match afterFirstChar '?' u.hash with
  | none => none
  | some qs => spGet (parseQuery qs) key

/-- Path segments skipped when scanning for a plausible feed id. -/
def xhsSkipSegments : List Str :=
  [S "explore", S "discovery", S "item", S "items"]

/-- One character of `[0-9a-zA-Z]`. -/
def isAsciiAlphanum (c : Char) : Bool :=
  ('0' ≤ c && c ≤ '9') || ('a' ≤ c && c ≤ 'z') || ('A' ≤ c && c ≤ 'Z')

/-- The regular expression `/^[0-9a-zA-Z]{8,}$/`. -/
def plausibleFeedId (seg : Str) : Bool :=
  decide (seg.length ≥ 8) && seg.all isAsciiAlphanum

/-- The backwards scan over path segments for a plausible content id. -/
def segScan (u : UrlObj) : Option Str :=
  (((splitOnChar '/' u.pathname).filter (fun s => !s.isEmpty)).reverse).find?
    (fun seg => !(xhsSkipSegments.contains (lower seg)) && plausibleFeedId seg)

/-- The two extracted `get_feed_detail` arguments. -/
structure FeedArgs where
  feedId : Str
  xsecToken : Str
  deriving DecidableEq

/-- The `xsecToken` alternative chain of `extractFeedIdAndToken`. -/
def xsecTokenOf (parseQuery : Str → List (Str × Str)) (u : UrlObj) :
    Option Str :=
  orFalsy (spGet u.searchParams (S "xsec_token"))
    (orFalsy (spGet u.searchParams (S "xsecToken"))
      (orFalsy (extractFromHash parseQuery u (S "xsec_token"))
        (extractFromHash parseQuery u (S "xsecToken"))))

/-- The `feedId` query-parameter alternative chain of
`extractFeedIdAndToken`. -/
def feedIdFromParams (u : UrlObj) : Option Str :=
  orFalsy (spGet u.searchParams (S "feed_id"))
    (orFalsy (spGet u.searchParams (S "feedId"))
      (orFalsy (spGet u.searchParams (S "note_id"))
        (orFalsy (spGet u.searchParams (S "noteId"))
          (spGet u.searchParams (S "id")))))

/-- The final `feedId` value: the parameter chain, falling back to the path
segment scan when the former is missing or empty. -/
def feedIdOf (u : UrlObj) : Option Str :=
  match feedIdFromParams u with
  | some s => if s.isEmpty then segScan u else some s
  | none => segScan u

/-- `extractFeedIdAndToken(urlStr)`.  `parseUrl` is the external WHATWG URL
parser (`new URL`, `none` when it throws), `parseQuery` the external
`URLSearchParams` parser. -/
def extractFeedIdAndToken (parseUrl : Str → Option UrlObj)
    (parseQuery : Str → List (Str × Str)) (urlStr : Str) : Option FeedArgs :=
  match parseUrl urlStr with
  | none => none
  | some u =>
    match feedIdOf u, xsecTokenOf parseQuery u with
    | some f, some x => if f.isEmpty || x.isEmpty then none else some ⟨f, x⟩
    | _, _ => none

end Xhs

namespace Xhs

/-! ## Normalisation of tool responses into `Post` records -/

/-- The regular expression `/^https?:\/\//i`. -/
def startsHttp (s : Str) : Bool :=
  listIsPrefixOf (S "http://") (lower s) || listIsPrefixOf (S "https://") (lower s)

/-- The regular expression `/^data:image\//i`. -/
def startsDataImage (s : Str) : Bool :=
  listIsPrefixOf (S "data:image/") (lower s)

/-- A `||` chain of JavaScript values (first truthy one, else the last). -/
def jsOrChain : List Json → Json
  | [] => .null
  | [x] => x
  | x :: y :: xs => jsOrJ x (jsOrChain (y :: xs))

/-- The tagged image source variant. -/
inductive ImageSource where
  | url (u : Str)
  | dataUrl (d : Str)
  deriving DecidableEq

/-- A normalised image record. -/
structure Image where
  id : Str
  source : ImageSource
  previewUrl : Json
  deriving DecidableEq

/-- The synthetic per-post image id `img_${i + 1}`. -/
def mkImageId (i : Nat) : Str := S "img_" ++ natToStr (i + 1)

/-- `item.url || item.src || item.urlDefault || item.urlPre ||
item.previewUrl || item.preview || item.link`. -/
def imgUrlOf (item : Json) : Json :=
  jsOrChain [getField item (S "url"), getField item (S "src"),
    getField item (S "urlDefault"), getField item (S "urlPre"),
    getField item (S "previewUrl"), getField item (S "preview"),
    getField item (S "link")]

/-- `item.data || item.base64 || item.dataUrl`. -/
def imgDataOf (item : Json) : Json :=
  jsOrChain [getField item (S "data"), getField item (S "base64"),
    getField item (S "dataUrl")]

/-- `item.mimeType || item.mime || "image/jpeg"`. -/
def imgMimeOf (item : Json) : Json :=
  jsOrChain [getField item (S "mimeType"), getField item (S "mime"),
    Json.str (S "image/jpeg")]

/-- The inline-data branch of the `normalizeImages` loop body. -/
def normalizeItemData (i : Nat) (item : Json) : Option Image :=
  match imgDataOf item with
  | .str d =>
    let dataUrl :=
      if listIsPrefixOf (S "data:") d then d
      else S "data:" ++ jsStringOf (imgMimeOf item) ++ S ";base64," ++ d
    some ⟨mkImageId i, .dataUrl dataUrl, .str dataUrl⟩
  | _ => none

/-- One iteration of the `normalizeImages` loop: descriptor at index `i`. -/
def normalizeItem (i : Nat) (item : Json) : Option Image :=
  if !truthy item then none
  else
    match item with
    | .str s =>
      if startsHttp s then some ⟨mkImageId i, .url s, .str s⟩
      else if startsDataImage s then some ⟨mkImageId i, .dataUrl s, .str s⟩
      else none
    | _ =>
      match imgUrlOf item with
      | .str us =>
        if startsHttp us then
          let urlPre := getField item (S "urlPre")
          let previewUrl :=
            if truthy urlPre && startsHttp (jsStringOf urlPre) then urlPre
            else Json.str us
          some ⟨mkImageId i, .url us, previewUrl⟩
        else normalizeItemData i item
      | _ => normalizeItemData i item

/-- The `normalizeImages` loop from position `i`. -/
def normImagesAux : Nat → List Json → List Image
  | _, [] => []
  | i, item :: rest =>
    match normalizeItem i item with
    | some img => img :: normImagesAux (i + 1) rest
    | none => normImagesAux (i + 1) rest

/-- `normalizeImages(images)`. -/
def normalizeImages (images : Json) : List Image :=
  match images with
  | .arr xs => normImagesAux 0 xs.toList
  | _ => []

/-- A normalised post record. -/
structure Post where
  sourceUrl : Str
  caption : Str
  images : List Image
  raw : Json
  deriving DecidableEq

/-- `raw && typeof raw === "object" ? raw : null`. -/
def objOf (raw : Json) : Json :=
  if truthy raw && isObjLike raw then raw else .null

/-- `obj?.data?.note`. -/
def noteOf (raw : Json) : Json :=
  getField (getField (objOf raw) (S "data")) (S "note")

/-- The feed-detail caption (`title` + blank line + `desc`), or `null` when
the note is not a truthy object. -/
def fdCaptionOf (raw : Json) : Option Str :=
  let note := noteOf raw
  if truthy note && isObjLike note then
    some (trimStr
      (trimStr (jsStringOfNullish (getField note (S "title"))) ++
        S "\n\n" ++ trimStr (jsStringOfNullish (getField note (S "desc")))))
  else none

/-- The generic caption alternative chain
`(obj && (obj.caption || obj.text || obj.description || obj.desc ||
obj.content)) || (typeof raw === "string" ? raw : "") || ""`. -/
def captionAltOf (raw : Json) : Json :=
  let second :=
    if truthy (objOf raw) then
      jsOrChain [getField (objOf raw) (S "caption"),
        getField (objOf raw) (S "text"),
        getField (objOf raw) (S "description"),
        getField (objOf raw) (S "desc"),
        getField (objOf raw) (S "content")]
    else .null
  let third : Json := match raw with | .str s => .str s | _ => .str []
  jsOrJ second (jsOrJ third (.str []))

/-- `String(caption ?? "").trim()` over the full caption alternative chain. -/
def captionOf (raw : Json) : Str :=
  let c : Json :=
    match fdCaptionOf raw with
    | some s => jsOrJ (.str s) (captionAltOf raw)
    | none => captionAltOf raw
  trimStr (jsStringOfNullish c)

/-- The image-list alternative chain
`(note && (note.imageList || note.images)) || (obj && (obj.images || … ||
obj.imgs)) || []`. -/
def imagesJsonOf (raw : Json) : Json :=
  let note := noteOf raw
  let first :=
    if truthy note then
      jsOrJ (getField note (S "imageList")) (getField note (S "images"))
    else .null
  let second :=
    if truthy (objOf raw) then
      jsOrChain [getField (objOf raw) (S "images"),
        getField (objOf raw) (S "imageUrls"),
        getField (objOf raw) (S "pictures"),
        getField (objOf raw) (S "photos"),
        getField (objOf raw) (S "media"),
        getField (objOf raw) (S "imgs")]
    else .null
  jsOrJ first (jsOrJ second (Json.arr .nil))

/-- `normalizePost({sourceUrl, raw})`. -/
def normalizePost (sourceUrl : Str) (raw : Json) : Post :=
  ⟨sourceUrl, captionOf raw, normalizeImages (imagesJsonOf raw), raw⟩

end Xhs

namespace Xhs

/-! ## The `getPost` operation of `createXhsClient` -/

/-- A thrown JavaScript error, identified by its message. -/
structure JsError where
  message : Str
  deriving DecidableEq

/-- An argument value of an MCP tool call. -/
inductive ArgVal where
  | s (v : Str)
  | b (v : Bool)
  deriving DecidableEq

/-- One MCP `callTool` request: tool name and argument fields in order. -/
structure ToolCall where
  name : Str
  args : List (Str × ArgVal)
  deriving DecidableEq

/-- `extractTextFromToolResult(toolResult)`. -/
def extractTextFromToolResult (tr : Json) : Str :=
  match getField tr (S "content") with
  | .arr items =>
    trimStr (List.intercalate (S "\n") (items.toList.filterMap (fun c =>
      if truthy c ∧ getField c (S "type") = Json.str (S "text") then
        match getField c (S "text") with
        | .str s => some s
        | _ => none
      else none)))
  | _ => []

/-- `looksLikeNotFoundError(message)`. -/
def looksLikeNotFoundError (message : Str) : Bool :=
  let msg := lower message
  if msg.isEmpty then false
  else
    containsSub (S "not found") msg || containsSub (S "notedetailmap") msg ||
      containsSub (S "404") msg || containsSub (S "resource not found") msg ||
      containsSub (S "不存在") msg

/-- One cache slot: insertion timestamp and the stored post. -/
structure CacheEntry where
  ts : Nat
  post : Post
  deriving DecidableEq

instance : Inhabited ImageSource := ⟨ImageSource.url []⟩

instance : Inhabited Image := ⟨⟨[], ImageSource.url [], Json.null⟩⟩

instance : Inhabited Post := ⟨⟨[], [], [], Json.null⟩⟩

instance : Inhabited CacheEntry := ⟨⟨0, ⟨[], [], [], Json.null⟩⟩⟩

/-- `cache.get(k)` on the insertion-ordered map model. -/
def mapGet (m : List (Str × CacheEntry)) (k : Str) : Option CacheEntry :=
  (m.find? (fun p => p.1 = k)).map Prod.snd

/-- `cache.set(k, v)`: update in place when the key exists (keeping its
insertion position, as a JavaScript `Map` does), else append. -/
def mapSet (m : List (Str × CacheEntry)) (k : Str) (v : CacheEntry) :
    List (Str × CacheEntry) :=
  if m.any (fun p => p.1 = k) then
    m.map (fun p => if p.1 = k then (k, v) else p)
  else m ++ [(k, v)]

/-- `pruneCache(now)`: drop expired entries, then evict oldest-first while
over capacity (the source's `while (cache.size > CACHE_MAX_ENTRIES)` loop
deleting the first key is dropping from the front). -/
def pruneCache (now : Nat) (m : List (Str × CacheEntry)) :
    List (Str × CacheEntry) :=
  (m.filter (fun p => now - p.2.ts < CACHE_TTL_MS)).drop
    ((m.filter (fun p => now - p.2.ts < CACHE_TTL_MS)).length - CACHE_MAX_ENTRIES)

/-- The module-level mutable state of one `createXhsClient` instance, as far
as `getPost` reads or writes it. -/
structure ClientState where
  cache : List (Str × CacheEntry)
  opCounter : Nat
  detectedToolName : Option Str
  connectSeq : Nat
  deriving DecidableEq

/-- `true` when the cache holds an unexpired entry for `u` at time `now`. -/
def hasFresh (now : Nat) (m : List (Str × CacheEntry)) (u : Str) : Bool :=
  match mapGet m u with
  | some e => decide (now - e.ts < CACHE_TTL_MS)
  | none => false

/-- Well-formedness of the cache model: a JavaScript `Map` cannot hold two
entries with the same key, and the source prunes to the capacity bound after
every insertion. -/
def cacheWF (m : List (Str × CacheEntry)) : Prop :=
  (m.map Prod.fst).Nodup ∧ m.length ≤ CACHE_MAX_ENTRIES

/-- The cache-and-counter bump at the top of `getPost` (the `opCounter`
increment and the periodic prune). -/
def bumped (now : Nat) (st : ClientState) : ClientState :=
  { st with
    opCounter := st.opCounter + 1
    cache :=
      if (st.opCounter + 1) % 12 = 0 then pruneCache now st.cache
      else st.cache }

/-- The external world of one `getPost` run.  Each asynchronous primitive is
an oracle indexed by how many calls of that kind were made before, so any
sequence of outside behaviours is representable. -/
structure Env where
  now : Nat
  resolve : Str → Str
  cfgToolName : Option Str
  getClientErr : Nat → Option JsError
  listTools : Nat → Except JsError (List Str)
  callTool : Nat → ToolCall → Except JsError Json
  jsonParse : Str → Option Json
  parseUrl : Str → Option UrlObj
  parseQuery : Str → List (Str × Str)

/-- Per-run bookkeeping: oracle cursors and the log of issued tool calls. -/
structure Run where
  nc : Nat
  lt : Nat
  ct : Nat
  log : List ToolCall
  deriving DecidableEq

/-- `await getClient()` — succeeds or rethrows the environment's error. -/
def doGetClient (env : Env) (r : Run) : Option JsError × Run :=
  (env.getClientErr r.nc, { r with nc := r.nc + 1 })

/-- `await client.callTool(...)` — logged, then answered by the oracle. -/
def doCallTool (env : Env) (r : Run) (c : ToolCall) :
    Except JsError Json × Run :=
  (env.callTool r.ct c, { r with ct := r.ct + 1, log := r.log ++ [c] })

/-- The candidate argument shapes of `callToolWithFallbackArgs`. -/
def urlArgCandidates (url : Str) : List (List (Str × ArgVal)) :=
  [[(S "url", .s url)], [(S "shareUrl", .s url)], [(S "link", .s url)],
    [(S "sourceUrl", .s url)]]

/-- The candidate loop of `callToolWithFallbackArgs`. -/
def callFallbackGo (env : Env) (toolName : Str) :
    Run → Option JsError → List (List (Str × ArgVal)) →
      Except JsError Json × Run
  | r, lastErr, [] =>
    (.error (lastErr.getD ⟨S "MCP tool call failed"⟩), r)
  | r, _, args :: rest =>
    match doCallTool env r ⟨toolName, args⟩ with
    | (.ok v, r1) => (.ok v, r1)
    | (.error e, r1) => callFallbackGo env toolName r1 (some e) rest

/-- `callToolWithFallbackArgs(client, toolName, url)`. -/
def callToolWithFallbackArgs (env : Env) (r : Run) (toolName url : Str) :
    Except JsError Json × Run :=
  callFallbackGo env toolName r none (urlArgCandidates url)

/-- The preference-ordered names of `detectToolName`. -/
def preferredToolNames : List Str :=
  [S "get_feed_detail", S "getContent", S "get_content", S "get-content",
    S "get_post", S "getPost", S "get_note", S "getNote"]

/-- The heuristic `/get/i.test(n) && /(content|post|note|xhs)/i.test(n)`. -/
def toolHeuristic (n : Str) : Bool :=
  containsSub (S "get") (lower n) &&
    (containsSub (S "content") (lower n) || containsSub (S "post") (lower n) ||
      containsSub (S "note") (lower n) || containsSub (S "xhs") (lower n))

/-- `names.join(", ") || "(none)"`. -/
def joinNamesOrNone (names : List Str) : Str :=
  let j := List.intercalate (S ", ") names
  if j.isEmpty then S "(none)" else j

/-- `detectToolName(client)`. -/
def detectToolName (env : Env) (r : Run) : Except JsError Str × Run :=
  match env.listTools r.lt with
  | .error e => (.error e, { r with lt := r.lt + 1 })
  | .ok raw =>
    match preferredToolNames.find?
        (fun p => (raw.filter (fun n => !n.isEmpty)).contains p) with
    | some n => (.ok n, { r with lt := r.lt + 1 })
    | none =>
      match (raw.filter (fun n => !n.isEmpty)).find? toolHeuristic with
      | some n => (.ok n, { r with lt := r.lt + 1 })
      | none =>
        (.error ⟨S "Could not auto-detect a \"get content\" tool. Available tools: " ++
          joinNamesOrNone (raw.filter (fun n => !n.isEmpty))⟩,
          { r with lt := r.lt + 1 })

/-- The preference list of `detectUrlToolFallbackName`. -/
def urlFallbackPreferred : List Str :=
  [S "getContent", S "get_content", S "get-content", S "get_post",
    S "getPost", S "get_note", S "getNote"]

/-- `detectUrlToolFallbackName(client)` — like `detectToolName` but without
`get_feed_detail`, and returning `null` instead of throwing on no match. -/
def detectUrlToolFallbackName (env : Env) (r : Run) :
    Except JsError (Option Str) × Run :=
  match env.listTools r.lt with
  | .error e => (.error e, { r with lt := r.lt + 1 })
  | .ok raw =>
    match urlFallbackPreferred.find?
        (fun p => (raw.filter (fun n => !n.isEmpty)).contains p) with
    | some n => (.ok (some n), { r with lt := r.lt + 1 })
    | none =>
      (.ok ((raw.filter (fun n => !n.isEmpty)).find? (fun n =>
        !(decide (n = S "get_feed_detail")) && toolHeuristic n)),
        { r with lt := r.lt + 1 })

/-- Resolution of the tool name in `getPost`: configured value, else cached
detection, else `detectToolName`; a fresh detection is cached. -/
def resolveTool (env : Env) (st : ClientState) (r : Run) :
    Except JsError Str × ClientState × Run :=
  match env.cfgToolName with
  | some s => (.ok s, st, r)
  | none =>
    match st.detectedToolName with
    | some d => (.ok d, { st with detectedToolName := some d }, r)
    | none =>
      match detectToolName env r with
      | (.ok n, r1) => (.ok n, { st with detectedToolName := some n }, r1)
      | (.error e, r1) => (.error e, st, r1)

/-- The `get_feed_detail` argument object
`{feed_id, xsec_token, load_all_comments: false}`. -/
def feedDetailArgs (fa : FeedArgs) : List (Str × ArgVal) :=
  [(S "feed_id", .s fa.feedId), (S "xsec_token", .s fa.xsecToken),
    (S "load_all_comments", .b false)]

/-- One logical tool invocation: the specialised single call for
`get_feed_detail`, else the candidate-argument cascade. -/
def invokeTool (env : Env) (r : Run) (toolName finalUrl : Str)
    (fa : FeedArgs) : Except JsError Json × Run :=
  if toolName = S "get_feed_detail" then
    doCallTool env r ⟨toolName, feedDetailArgs fa⟩
  else callToolWithFallbackArgs env r toolName finalUrl

/-- `raw = tryParseJson(text) ?? (text ? {caption: text} : toolResult)`. -/
def rawOfText (env : Env) (tr : Json) : Json :=
  let text := extractTextFromToolResult tr
  let parsed : Option Json :=
    if (trimStr text).isEmpty then none
    else
      match env.jsonParse (trimStr text) with
      | some .null => none
      | o => o
  match parsed with
  | some v => v
  | none => if text.isEmpty then tr else .obj (.cons (S "caption") (.str text) .nil)

/-- The tail of a successful `getPost`: normalise, store under the
originally requested URL, prune, return. -/
def finishPost (env : Env) (st : ClientState) (sourceUrl finalUrl : Str)
    (tr : Json) (r : Run) : Except JsError Post × ClientState × List ToolCall :=
  let post := normalizePost finalUrl (rawOfText env tr)
  let cache1 := mapSet st.cache sourceUrl ⟨env.now, post⟩
  let cache2 := pruneCache env.now cache1
  (.ok post, { st with cache := cache2 }, r.log)

/-- The error message `Fetch failed: MCP tool "name" error: msg`. -/
def fetchFailedMsg (toolName msg : Str) : JsError :=
  ⟨S "Fetch failed: MCP tool \"" ++ toolName ++ S "\" error: " ++ msg⟩

/-- The feed-args extraction failure message. -/
def noFeedArgsError : JsError :=
  ⟨S "Could not extract feed_id/xsec_token from this URL. Open the post in a browser and copy the full URL with xsec_token."⟩

/-- The actionable hint appended when every fallback is exhausted. -/
def notFoundHint : Str :=
  S "Fetch failed. The post may be deleted/private, or the URL token is missing/expired.\n- Try opening the post in a browser and copying the full URL (with xsec_token).\n- If you used an xhslink short link, try pasting the expanded www.xiaohongshu.com URL."

/-- `extractTextFromToolResult(toolResult) || "MCP tool returned an error"`. -/
def toolErrMsg (tr : Json) : Str :=
  if (extractTextFromToolResult tr).isEmpty then S "MCP tool returned an error"
  else extractTextFromToolResult tr

/-- Fallback step one: when a URL-based tool failed "not found" on a
redirect-resolved URL, retry the same tool once with the original URL,
keeping the retry result only when it is a truthy non-error. -/
def retryOriginalUrl (env : Env) (sourceUrl finalUrl toolName msg : Str)
    (tr : Json) (r : Run) : Json × Run :=
  if toolName ≠ S "get_feed_detail" ∧ finalUrl ≠ sourceUrl ∧
      looksLikeNotFoundError msg = true then
    match doGetClient env r with
    | (some _, ra) => (tr, ra)
    | (none, ra) =>
      match callToolWithFallbackArgs env ra toolName sourceUrl with
      | (.ok rr, rb) =>
        (if truthy rr ∧ ¬ truthy (getField rr (S "isError")) then rr else tr, rb)
      | (.error _, rb) => (tr, rb)
  else (tr, r)

/-- Fallback step two: when auto-detected `get_feed_detail` failed "not
found", try one alternate URL-based tool. -/
def feedFallback (env : Env) (st : ClientState) (finalUrl toolName msg : Str)
    (tr : Json) (r : Run) : Json × ClientState × Run :=
  if env.cfgToolName = none ∧ toolName = S "get_feed_detail" ∧
      looksLikeNotFoundError msg = true then
    match doGetClient env r with
    | (some _, ra) => (tr, st, ra)
    | (none, ra) =>
      match detectUrlToolFallbackName env ra with
      | (.error _, rb) => (tr, st, rb)
      | (.ok none, rb) => (tr, st, rb)
      | (.ok (some alt), rb) =>
        match callToolWithFallbackArgs env rb alt finalUrl with
        | (.error _, rc) => (tr, st, rc)
        | (.ok ar, rc) =>
          if truthy ar ∧ ¬ truthy (getField ar (S "isError")) then
            (ar, { st with detectedToolName := some alt }, rc)
          else (tr, st, rc)
  else (tr, st, r)

/-- The fallback handling once the tool reported `isError` (step 7 of the
specified operation), followed by normalisation. -/
def afterInvoke (env : Env) (st : ClientState) (sourceUrl finalUrl toolName : Str)
    (tr : Json) (r : Run) : Except JsError Post × ClientState × List ToolCall :=
  if truthy (getField tr (S "isError")) then
    match retryOriginalUrl env sourceUrl finalUrl toolName (toolErrMsg tr) tr r with
    | (tr1, r1) =>
      match feedFallback env st finalUrl toolName (toolErrMsg tr) tr1 r1 with
      | (tr2, st2, r2) =>
        if truthy (getField tr2 (S "isError")) then
          (.error ⟨toolErrMsg tr ++ S "\n\n" ++ notFoundHint⟩, st2, r2.log)
        else finishPost env st2 sourceUrl finalUrl tr2 r2
  else finishPost env st sourceUrl finalUrl tr r

/-- The tool invocation with its catch-block: one reconnect-and-retry on a
thrown (transport) error, wrapping a second failure into `Fetch failed`. -/
def invokePhase (env : Env) (st : ClientState) (sourceUrl finalUrl toolName : Str)
    (fa : FeedArgs) (r : Run) : Except JsError Post × ClientState × List ToolCall :=
  match invokeTool env r toolName finalUrl fa with
  | (.ok tr, r1) => afterInvoke env st sourceUrl finalUrl toolName tr r1
  | (.error _, r1) =>
    match doGetClient env r1 with
    | (some e2, r2) =>
      (.error (fetchFailedMsg toolName e2.message),
        { st with connectSeq := st.connectSeq + 1, detectedToolName := none },
        r2.log)
    | (none, r2) =>
      match invokeTool env r2 toolName finalUrl fa with
      | (.ok tr, r3) =>
        afterInvoke env
          { st with connectSeq := st.connectSeq + 1, detectedToolName := none }
          sourceUrl finalUrl toolName tr r3
      | (.error e2, r3) =>
        (.error (fetchFailedMsg toolName e2.message),
          { st with connectSeq := st.connectSeq + 1, detectedToolName := none },
          r3.log)

/-- The cache-miss path of `getPost`: resolve redirects, obtain a client,
resolve the tool name, extract feed args when needed, and invoke. -/
def fetchPath (env : Env) (st : ClientState) (sourceUrl : Str) :
    Except JsError Post × ClientState × List ToolCall :=
  match doGetClient env ⟨0, 0, 0, []⟩ with
  | (some e, r1) => (.error e, st, r1.log)
  | (none, r1) =>
    match resolveTool env st r1 with
    | (.error e, st1, r2) => (.error e, st1, r2.log)
    | (.ok toolName, st1, r2) =>
      if toolName = S "get_feed_detail" then
        match extractFeedIdAndToken env.parseUrl env.parseQuery
            (env.resolve sourceUrl) with
        | none => (.error noFeedArgsError, st1, r2.log)
        | some fa =>
          invokePhase env st1 sourceUrl (env.resolve sourceUrl) toolName fa r2
      else
        invokePhase env st1 sourceUrl (env.resolve sourceUrl) toolName ⟨[], []⟩ r2

/-- `getPost(sourceUrl)`: opCounter bump, periodic prune, cache lookup with
TTL, else the fetch path.  Returns the outcome, the new client state, and
the list of MCP tool calls issued during this run. -/
def getPost (env : Env) (st : ClientState) (sourceUrl : Str) :
    Except JsError Post × ClientState × List ToolCall :=
  match mapGet (bumped env.now st).cache sourceUrl with
  | some e =>
    if env.now - e.ts < CACHE_TTL_MS then (.ok e.post, bumped env.now st, [])
    else fetchPath env (bumped env.now st) sourceUrl
  | none => fetchPath env (bumped env.now st) sourceUrl

end Xhs

namespace OpenAIC

/-! ## Embedding of the OpenAI client (`createOpenAIClient` module) -/

/-- An error raised during a completion attempt: an HTTP status (possibly on
the nested `response` object, as read by `err?.status ?? err?.response?.status`)
and a message. Errors thrown by the client code itself have no status. -/
structure ApiError where
  status : Option Nat
  responseStatus : Option Nat
  message : Str
  deriving DecidableEq

/-- `err?.status ?? err?.response?.status`. -/
def effStatus (e : ApiError) : Option Nat :=
  match e.status with
  | some s => some s
  | none => e.responseStatus

/-- `status === 429 || (status >= 500 && status <= 599)`; an absent status is
never retryable (JavaScript comparisons with `undefined` are false). -/
def retryableStatus (e : ApiError) : Bool :=
  match effStatus e with
  | some s => decide (s = 429) || (decide (500 ≤ s) && decide (s ≤ 599))
  | none => false

/-- The retry loop of `withRetry`, structured on the remaining retry budget.
`callIdx` counts the calls already made (the JavaScript `attempt` counter
equals `callIdx + 1` at classification time).  Returns the outcome and the
list of backoff delays slept between attempts. -/
def withRetryGo {α : Type} (fn : Nat → Except ApiError α) (baseDelayMs : Nat) :
    Nat → Nat → Except ApiError α × List Nat
  | 0, callIdx =>
    match fn callIdx with
    | .ok a => (.ok a, [])
    | .error e => (.error e, [])
  | rem + 1, callIdx =>
    match fn callIdx with
    | .ok a => (.ok a, [])
    | .error e =>
      if retryableStatus e then
        match withRetryGo fn baseDelayMs rem (callIdx + 1) with
        | (res, ds) => (res, min (baseDelayMs * 2 ^ callIdx) 1500 :: ds)
      else (.error e, [])

/-- `withRetry(fn, {retries, baseDelayMs})`. -/
def withRetry {α : Type} (fn : Nat → Except ApiError α)
    (retries baseDelayMs : Nat) : Except ApiError α × List Nat :=
  withRetryGo fn baseDelayMs retries 0

/-- `isUnsupportedParamError(err, needle)`. -/
def isUnsupportedParamError (e : ApiError) (needle : Str) : Bool :=
  containsSub (S "Unsupported") e.message && containsSub needle e.message

/-- An image attachment: the Responses style sends the data URL as a plain
`image_url` string value; the chat style wraps it in an object. -/
inductive ImgAttach where
  | plainUrl (u : Str) (detail : Str)
  | wrapped (u : Str) (detail : Str)
  deriving DecidableEq

/-- One request to the Responses API: the only extra-parameter variant the
source uses is an optional `max_output_tokens` cap. -/
structure RespReq where
  model : Str
  instructions : Str
  userText : Str
  attachments : List ImgAttach
  maxOutputTokens : Option Nat
  deriving DecidableEq

/-- One content item of a Responses output message. -/
structure RContentItem where
  ctype : Str
  refusal : Option Str
  deriving DecidableEq

/-- One output item of a Responses result. -/
structure ROutputItem where
  itype : Str
  content : Option (List RContentItem)
  deriving DecidableEq

/-- A Responses API result. `output_text` is `some` exactly when the field
is a string; `output` is `some` exactly when it is an array. -/
structure RespResult where
  output_text : Option Str
  output : Option (List ROutputItem)
  deriving DecidableEq

/-- First non-blank refusal string in a content list. -/
def refusalInContent : List RContentItem → Option Str
  | [] => none
  | c :: rest =>
    if c.ctype = S "refusal" then
      match c.refusal with
      | some s => if (trimStr s).isEmpty then refusalInContent rest
                  else some (trimStr s)
      | none => refusalInContent rest
    else refusalInContent rest

/-- First refusal inside the message items of a Responses output. -/
def findRefusal : List ROutputItem → Option Str
  | [] => none
  | it :: rest =>
    if it.itype = S "message" then
      match it.content with
      | some cs =>
        match refusalInContent cs with
        | some s => some s
        | none => findRefusal rest
      | none => findRefusal rest
    else findRefusal rest

/-- `extractResponsesText(res)`: the output text when non-blank, else a
thrown refusal error when one is present, else the (blank) text. -/
def extractResponsesText (res : RespResult) : Except ApiError Str :=
  if !(trimStr (res.output_text.getD [])).isEmpty then
    .ok (res.output_text.getD [])
  else
    match findRefusal (res.output.getD []) with
    | some s => .error ⟨none, none, S "OpenAI refusal: " ++ s⟩
    | none => .ok (res.output_text.getD [])

/-- The attachments built by `generateViaResponses`: plain-URL encoding. -/
def gvrAttachments (imageDataUrls : List Str) : List ImgAttach :=
  (imageDataUrls.filter (fun u => !u.isEmpty)).map
    (fun u => .plainUrl u (S "high"))

/-- The extra-parameter variants of `generateViaResponses`:
`{max_output_tokens: 1800}`, then `{}`. -/
def respVariants : List (Option Nat) := [some 1800, none]

/-- The outcome of one `generateViaResponses` attempt body: the text when
the call succeeded with non-blank output, else the error the catch block
classifies (API error, refusal, or the blank/no-content errors the source
itself throws — the latter carry no status). -/
def gvrOutcome (oracle : Nat → RespReq → Except ApiError RespResult)
    (idx : Nat) (req : RespReq) : Except ApiError Str :=
  match oracle idx req with
  | .error apiErr => .error apiErr
  | .ok res =>
    match extractResponsesText res with
    | .error refusalErr => .error refusalErr
    | .ok out =>
      if (trimStr out).isEmpty then
        .error ⟨none, none, S "OpenAI returned blank content"⟩
      else .ok out

/-- The variant loop of `generateViaResponses`: stop at the first non-blank
text, move to the next variant only on a 400 "Unsupported …
max_output_tokens" error, rethrow anything else.  `oracle` answers the
`k`-th request of this attempt; the request log is returned alongside. -/
def gvrGo (oracle : Nat → RespReq → Except ApiError RespResult)
    (model sys user : Str) (imgs : List Str) :
    Nat → List (Option Nat) → Option ApiError →
      Except ApiError Str × List RespReq
  | _, [], lastErr =>
    (.error (lastErr.getD ⟨none, none, S "OpenAI request failed"⟩), [])
  | idx, v :: rest, _ =>
    match gvrOutcome oracle idx ⟨model, sys, user, gvrAttachments imgs, v⟩ with
    | .ok out => (.ok out, [⟨model, sys, user, gvrAttachments imgs, v⟩])
    | .error err =>
      if effStatus err = some 400 ∧
          isUnsupportedParamError err (S "max_output_tokens") = true then
        match gvrGo oracle model sys user imgs (idx + 1) rest (some err) with
        | (res, log) => (res, ⟨model, sys, user, gvrAttachments imgs, v⟩ :: log)
      else (.error err, [⟨model, sys, user, gvrAttachments imgs, v⟩])

/-- `generateViaResponses({systemPrompt, userPrompt, imageDataUrls})`. -/
def generateViaResponses (oracle : Nat → RespReq → Except ApiError RespResult)
    (model sys user : Str) (imgs : List Str) :
    Except ApiError Str × List RespReq :=
  gvrGo oracle model sys user imgs 0 respVariants none

/-- One extra parameter of a chat-completions request. -/
inductive ChatParam where
  | temperature
  | maxCompletionTokens (n : Nat)
  | maxTokens (n : Nat)
  deriving DecidableEq

/-- One chat-completions request. -/
structure ChatReq where
  model : Str
  systemText : Str
  userText : Str
  attachments : List ImgAttach
  params : List ChatParam
  deriving DecidableEq

/-- A chat-completions result: `res?.choices?.[0]?.message?.content`
(`none` models a nullish content). -/
structure ChatResp where
  content : Option Str
  deriving DecidableEq

/-- The attachments built by the chat path: wrapped-object encoding. -/
def chatAttachments (imgs : List Str) : List ImgAttach :=
  (imgs.filter (fun u => !u.isEmpty)).map (fun u => .wrapped u (S "high"))

/-- The parameter variants of the chat path. -/
def chatVariants : List (List ChatParam) :=
  [[.temperature, .maxCompletionTokens 1800], [.maxCompletionTokens 1800],
    [.temperature, .maxTokens 1800], [.maxTokens 1800], [.temperature], []]

/-- The outcome of one chat-completions attempt body. -/
def chatOutcome (oracle : Nat → ChatReq → Except ApiError ChatResp)
    (idx : Nat) (req : ChatReq) : Except ApiError Str :=
  match oracle idx req with
  | .error apiErr => .error apiErr
  | .ok res =>
    match res.content with
    | none => .error ⟨none, none, S "OpenAI returned no content"⟩
    | some out =>
      if (trimStr out).isEmpty then
        .error ⟨none, none, S "OpenAI returned blank content"⟩
      else .ok out

/-- The variant loop of the chat-completions path: next variant only on a
400 unsupported `max_tokens`/`max_completion_tokens`/`temperature` error. -/
def chatGo (oracle : Nat → ChatReq → Except ApiError ChatResp)
    (model sys user : Str) (imgs : List Str) :
    Nat → List (List ChatParam) → Option ApiError →
      Except ApiError Str × List ChatReq
  | _, [], lastErr =>
    (.error (lastErr.getD ⟨none, none, S "OpenAI request failed"⟩), [])
  | idx, ps :: rest, _ =>
    match chatOutcome oracle idx ⟨model, sys, user, chatAttachments imgs, ps⟩ with
    | .ok out => (.ok out, [⟨model, sys, user, chatAttachments imgs, ps⟩])
    | .error err =>
      if effStatus err = some 400 ∧
          (isUnsupportedParamError err (S "max_tokens") = true ∨
            isUnsupportedParamError err (S "max_completion_tokens") = true ∨
            isUnsupportedParamError err (S "temperature") = true) then
        match chatGo oracle model sys user imgs (idx + 1) rest (some err) with
        | (res, log) =>
          (res, ⟨model, sys, user, chatAttachments imgs, ps⟩ :: log)
      else (.error err, [⟨model, sys, user, chatAttachments imgs, ps⟩])

/-- The chat-completions path of `generateRecipeMarkdown`. -/
def chatPath (oracle : Nat → ChatReq → Except ApiError ChatResp)
    (model sys user : Str) (imgs : List Str) :
    Except ApiError Str × List ChatReq :=
  chatGo oracle model sys user imgs 0 chatVariants none

/-- `/^gpt-5/i.test(model)`. -/
def isGpt5 (model : Str) : Bool := listIsPrefixOf (S "gpt-5") (lower model)

/-- The external completion endpoint: one oracle per request style, indexed
by the retry attempt and by the request index within the attempt. -/
structure CEnv where
  respond : Nat → Nat → RespReq → Except ApiError RespResult
  chatRespond : Nat → Nat → ChatReq → Except ApiError ChatResp

/-- One retry attempt of `generateRecipeMarkdown`: Responses style for
`gpt-5*` models, chat style otherwise. -/
def grmAttempt (env : CEnv) (model sys user : Str) (imgs : List Str)
    (attempt : Nat) : Except ApiError Str :=
  if isGpt5 model then
    (generateViaResponses (env.respond attempt) model sys user imgs).1
  else (chatPath (env.chatRespond attempt) model sys user imgs).1

/-- `generateRecipeMarkdown(...)`: the attempt body wrapped in
`withRetry(…, {retries: 2, baseDelayMs: 800})`. -/
def generateRecipeMarkdown (env : CEnv) (model sys user : Str)
    (imgs : List Str) : Except ApiError Str × List Nat :=
  withRetry (grmAttempt env model sys user imgs) 2 800

/-- A 400 "unsupported parameter" error for `max_output_tokens`. -/
def wUnsupportedErr : ApiError :=
  ⟨some 400, none, S "Unsupported parameter: max_output_tokens"⟩

/-- An oracle that always rejects with the unsupported-parameter error. -/
def wOracleUnsupported : Nat → RespReq → Except ApiError RespResult :=
  fun _ _ => .error wUnsupportedErr

/-- A completion environment that always rejects with the
unsupported-parameter error. -/
def wCEnv : CEnv :=
  ⟨fun _ => wOracleUnsupported, fun _ _ _ => .error wUnsupportedErr⟩

/-- A successful Responses result with non-blank output text. -/
def wRespOk : RespResult := ⟨some (S "recipe"), some []⟩

/-- An oracle that answers the first request with non-blank text. -/
def wOracleOk : Nat → RespReq → Except ApiError RespResult :=
  fun _ _ => .ok wRespOk

end OpenAIC

namespace Launcher

/-! ## Embedding of the MCP launcher (`createMcpLauncher` module)

Timing constants from the source; the busy-wait loops
(`while (Date.now() - startedAt < …) { …; await sleep(READY_POLL_INTERVAL_MS) }`)
are modelled as fuel-bounded polls of an indexed readiness oracle, with the
fuel derived from the timeout divided by the poll interval. -/

def READY_POLL_INTERVAL_MS : Nat := 250

def STARTUP_TIMEOUT_MS : Nat := 5000

def HEALTHCHECK_TIMEOUT_MS : Nat := 1250

def portWaitPolls : Nat := 1250 / READY_POLL_INTERVAL_MS

def startupPolls : Nat := STARTUP_TIMEOUT_MS / READY_POLL_INTERVAL_MS

/-- Resolved launcher configuration (`cfg.mcp`). -/
structure LCfg where
  transportHttp : Bool
  exePath : Str
  httpUrl : Str
  deriving DecidableEq

/-- External behaviour of the environment during one `ensureStarted` body:
whether `fs.access(exePath)` succeeds, the result of the n-th MCP health
check, whether the TCP port is open, and whether `spawn` returns without a
synchronous error. -/
structure LEnv where
  cfg : LCfg
  fsAccessOk : Bool
  isReady : Nat → Bool
  portOpen : Bool
  spawnOk : Bool

/-- Observable side effects of the launcher body. -/
inductive LEvent where
  | spawnChild (exe : Str) : LEvent
  | stopChild (reason : Str) : LEvent
  deriving DecidableEq

/-- Launcher closure state: the child handle (modelled by presence),
`childExePath`, and the in-flight `ensurePromise` (by promise id). -/
structure LState where
  child : Bool
  childExePath : Option Str
  ensurePromise : Option Nat
  deriving DecidableEq

/-- Launcher status record (`setStatus` payloads, without timestamps). -/
structure LStatus where
  state : Str
  kind : Str
  message : Str
  code : Option Str
  deriving DecidableEq

/-- `stopChild(reason)`: kill and clear the child if present. -/
def stopChildM (st : LState) (reason : Str) : LState × List LEvent :=
  if st.child then
    ({ st with
        child := false
        childExePath := none }, [LEvent.stopChild reason])
  else (st, [])

/-- A fuel-bounded readiness poll loop starting at health-check index `n`:
returns whether some poll succeeded. -/
def pollReady (isReady : Nat → Bool) : Nat → Nat → Bool
  | 0, _ => false
  | fuel + 1, n => if isReady n then true else pollReady isReady fuel (n + 1)

/-- The final wait loop of the body (poll up to `STARTUP_TIMEOUT_MS`, then
`startup_timeout`). Health-check index 0 was consumed by the initial
readiness probe, so polling starts at index 1. -/
def startupWait (env : LEnv) (st : LState) (evs : List LEvent) :
    LStatus × LState × List LEvent :=
  if pollReady env.isReady startupPolls 1 then
    (⟨S "ready", S "info", S "MCP ready.", none⟩, st, evs)
  else
    (⟨S "error", S "error", S "MCP failed to start.", some (S "startup_timeout")⟩,
      st, evs)

/-- The spawn section of the body (lines 212-273 of the source): restart on
a changed exe path was already applied by the caller; spawn only when no
child is running, then wait for readiness. -/
def spawnPhase (env : LEnv) (st : LState) (evs : List LEvent) :
    LStatus × LState × List LEvent :=
  if st.child then
    startupWait env st evs
  else if env.spawnOk then
    startupWait env
      { st with
          child := true
          childExePath := some (trimStr env.cfg.exePath) }
      (evs ++ [LEvent.spawnChild (trimStr env.cfg.exePath)])
  else
    (⟨S "error", S "error", S "Failed to launch MCP.", some (S "spawn_failed")⟩,
      { st with
          childExePath := some (trimStr env.cfg.exePath) },
      evs ++ [LEvent.spawnChild (trimStr env.cfg.exePath)])

/-- The body of `ensureStarted` (the async IIFE, lines 124-284). -/
def ensureBody (env : LEnv) (st : LState) : LStatus × LState × List LEvent :=
  if env.cfg.transportHttp = false then
    (⟨S "disabled", S "info",
        S "MCP auto-start disabled (Transport is Stdio).", none⟩, st, [])
  else if (trimStr env.cfg.exePath).isEmpty then
    (⟨S "needs_path", S "warn", S "Set MCP path to enable fetching.", none⟩,
      (stopChildM st (S "no exePath")).1, (stopChildM st (S "no exePath")).2)
  else if (trimStr env.cfg.httpUrl).isEmpty then
    (⟨S "error", S "error",
        S "Missing MCP HTTP URL. Open Settings and set MCP HTTP URL.", none⟩,
      st, [])
  else if env.fsAccessOk = false then
    (⟨S "error", S "error", S "MCP executable not found.", none⟩,
      (stopChildM st (S "exe missing")).1, (stopChildM st (S "exe missing")).2)
  else if env.isReady 0 then
    (⟨S "ready", S "info", S "MCP ready.", none⟩, st, [])
  else if env.portOpen then
    if pollReady env.isReady portWaitPolls 1 then
      (⟨S "ready", S "info", S "MCP ready.", none⟩, st, [])
    else
      (⟨S "error", S "error",
          S "Port is in use (or MCP HTTP URL is incorrect).",
          some (S "port_in_use")⟩,
        (stopChildM st (S "port already in use")).1,
        (stopChildM st (S "port already in use")).2)
  else if h : st.child = true ∧ st.childExePath ≠ some (trimStr env.cfg.exePath) then
    spawnPhase env (stopChildM st (S "exePath changed")).1
      (stopChildM st (S "exePath changed")).2
  else
    spawnPhase env st []

/-- Number of `spawn` calls in an event trace. -/
def spawnCount (evs : List LEvent) : Nat :=
  (evs.filter fun e =>
    match e with
    | LEvent.spawnChild _ => true
    | LEvent.stopChild _ => false).length

/-- The launcher with its promise-id supply. -/
structure Launcher where
  ls : LState
  nextPromise : Nat
  deriving DecidableEq

/-- The synchronous entry of `ensureStarted` (lines 122-124 and 288):
if an `ensurePromise` is in flight, return it without starting a body;
otherwise register a fresh promise for the new body run. The returned
flag records whether a new body was started. -/
def ensureStartedCall (L : Launcher) : Nat × Launcher × Bool :=
  match L.ls.ensurePromise with
  | some p => (p, L, false)
  | none =>
    (L.nextPromise,
      { ls := { L.ls with
          ensurePromise := some L.nextPromise }
        nextPromise := L.nextPromise + 1 }, true)

/-- Witness data: a launcher with an in-flight `ensurePromise`. -/
def wLauncherBusy : Launcher := ⟨⟨false, none, some 3⟩, 7⟩

/-- Witness data: an idle launcher. -/
def wLauncherIdle : Launcher := ⟨⟨false, none, none⟩, 5⟩

/-- Witness data: an http configuration whose spawn succeeds and whose
server becomes ready on the second poll. -/
def wLEnv : LEnv :=
  ⟨⟨true, S "C:/mcp/xhs.exe", S "http://localhost:18060/mcp"⟩,
    true, fun n => decide (2 ≤ n), false, true⟩

/-- Witness data: a launcher closure state with no child. -/
def wLState : LState := ⟨false, none, none⟩

end Launcher

namespace Xhs

/-! ## Connection sequencing of `createXhsClient`
(`disconnect` / `connectNewClient`) -/

/-- Observable side effects of connection management. -/
inductive ConnEvent where
  | closeTransport (tid : Nat) : ConnEvent
  deriving DecidableEq

/-- Connection-management state of the client closure: the connect
sequence counter, the installed connection (by transport id), the detected
tool name, and the connection key. -/
structure ConnState where
  connectSeq : Nat
  connected : Option Nat
  detectedToolName : Option Str
  connectedKey : Option Str
  deriving DecidableEq

/-- `disconnect(reason)` (lines 244-258): bump `connectSeq`, clear the
installed connection and its metadata, and close the old transport if one
was installed. -/
def disconnectM (cs : ConnState) : ConnState × List ConnEvent :=
  ({ cs with
      connectSeq := cs.connectSeq + 1
      connected := none
      detectedToolName := none
      connectedKey := none },
    match cs.connected with
    | some tid => [ConnEvent.closeTransport tid]
    | none => [])

/-- The resumption of `connectNewClient` after `client.connect(transport)`
settles (lines 265-296): `startSeq` is the `connectSeq` captured at entry,
`tid` the transport opened by this attempt, `key` its connection key, and
`cs` the closure state at resumption time — `disconnect` may have run
during the await. A stale attempt closes its transport and throws; a
current one installs the connection. -/
def connectFinish (startSeq : Nat) (tid : Nat) (key : Str) (cs : ConnState) :
    Except JsError Nat × ConnState × List ConnEvent :=
  if startSeq ≠ cs.connectSeq then
    (.error ⟨S "MCP connection was reset during connect"⟩, cs,
      [ConnEvent.closeTransport tid])
  else
    (.ok tid,
      { cs with
          connected := some tid
          connectedKey := some key }, [])

/-- Witness data: a connection state with transport 4 installed. -/
def wConnSt : ConnState := ⟨2, some 4, some (S "get_feed_detail"), some (S "http:u")⟩

end Xhs

/-! ## Concrete witness data and decimal-id helpers -/

/-- Numeric value of a decimal digit character. -/
def digitVal (c : Char) : Nat := c.toNat - 48

/-- Decode a digit string back to a number (big-endian). -/
def decodeDigits (l : List Char) : Nat :=
  l.foldl (fun acc c => acc * 10 + digitVal c) 0

/-- Strictly-increasing check on a list of naturals (boolean). -/
def strInc : List Nat → Bool
  | [] => true
  | [_] => true
  | a :: b :: t => decide (a < b) && strInc (b :: t)

/-- A tool response object carrying one text content item. -/
def wToolResult : Json :=
  .obj (.cons (S "content")
    (.arr (.cons (.obj (.cons (S "type") (.str (S "text"))
      (.cons (S "text") (.str (S "J")) .nil))) .nil)) .nil)

/-- A parsed payload with two image URLs. -/
def wParsed : Json :=
  .obj (.cons (S "images")
    (.arr (.cons (.str (S "http://a")) (.cons (.str (S "http://b")) .nil))) .nil)

/-- A concrete environment: configured tool name, all externals succeed. -/
def wEnv : Xhs.Env where
  now := 1000
  resolve := fun s => s
  cfgToolName := some (S "getContent")
  getClientErr := fun _ => none
  listTools := fun _ => .ok []
  callTool := fun _ _ => .ok wToolResult
  jsonParse := fun _ => some wParsed
  parseUrl := fun _ => none
  parseQuery := fun _ => []

/-- A cached post used by the cache-hit witness. -/
def wPost : Xhs.Post := ⟨S "u", S "c", [], Json.null⟩

/-- A client state holding one fresh cache entry for `"u"`. -/
def wStHit : Xhs.ClientState := ⟨[(S "u", ⟨990, wPost⟩)], 0, none, 0⟩

/-- A client state with an empty cache. -/
def wStMiss : Xhs.ClientState := ⟨[], 0, none, 0⟩

/-- The post fetched by the concrete witness run: two images. -/
def wPostFetched : Xhs.Post :=
  ⟨S "u", [],
    [⟨S "img_1", .url (S "http://a"), .str (S "http://a")⟩,
      ⟨S "img_2", .url (S "http://b"), .str (S "http://b")⟩], wParsed⟩

/-- The client state after the concrete witness fetch. -/
def wStFetched : Xhs.ClientState := ⟨[(S "u", ⟨1000, wPostFetched⟩)], 1, none, 0⟩

/-- The tool-call log of the concrete witness fetch. -/
def wLogFetched : List Xhs.ToolCall :=
  [⟨S "getContent", [(S "url", Xhs.ArgVal.s (S "u"))]⟩]

/-- The URL object for the feed-detail witness URL. -/
def wUrlObj : Xhs.UrlObj :=
  ⟨[(S "xsec_token", S "T1")], S "/discovery/item/abcdefgh", []⟩

/-- A concrete environment whose configured tool is `get_feed_detail` and
whose URL parser yields a token and a plausible path id. -/
def wEnvFeed : Xhs.Env where
  now := 1000
  resolve := fun s => s
  cfgToolName := some (S "get_feed_detail")
  getClientErr := fun _ => none
  listTools := fun _ => .ok []
  callTool := fun _ _ => .ok wToolResult
  jsonParse := fun _ => none
  parseUrl := fun _ => some wUrlObj
  parseQuery := fun _ => []

/-- An environment whose tool returns an empty (but non-error) result. -/
def wEnvEmpty : Xhs.Env where
  now := 1000
  resolve := fun s => s
  cfgToolName := some (S "getContent")
  getClientErr := fun _ => none
  listTools := fun _ => .ok []
  callTool := fun _ _ => .ok (Json.obj .nil)
  jsonParse := fun _ => none
  parseUrl := fun _ => none
  parseQuery := fun _ => []

/-- A tool result flagged as an error whose text matches "not found". -/
def wErrResult : Json :=
  .obj (.cons (S "isError") (.boolV true)
    (.cons (S "content")
      (.arr (.cons (.obj (.cons (S "type") (.str (S "text"))
        (.cons (S "text") (.str (S "resource not found")) .nil))) .nil))
      .nil))

/-- An environment whose redirect resolution changes the URL and whose
first tool call fails with a "not found" error. -/
def wEnvRetry : Xhs.Env where
  now := 1000
  resolve := fun _ => S "https://resolved"
  cfgToolName := some (S "getContent")
  getClientErr := fun _ => none
  listTools := fun _ => .ok []
  callTool := fun n _ => if n = 0 then .ok wErrResult else .ok (Json.obj .nil)
  jsonParse := fun _ => none
  parseUrl := fun _ => none
  parseQuery := fun _ => []


namespace Xhs

theorem find?_filter_of_find? {α : Type} (l : List α) (p q : α → Bool) (x : α)
    (hf : l.find? p = some x) (hq : q x = true) :
    (l.filter q).find? p = some x := by
  induction l with
  | nil => simp at hf
  | cons a t ih =>
    by_cases hpa : p a = true
    · rw [List.find?_cons_of_pos _ hpa] at hf
      cases hf
      simp [List.filter_cons, hq, List.find?_cons_of_pos _ hpa]
    · rw [List.find?_cons_of_neg _ (by simpa using hpa)] at hf
      by_cases hqa : q a = true
      · rw [List.filter_cons_of_pos hqa,
          List.find?_cons_of_neg _ (by simpa using hpa)]
        exact ih hf
      · rw [List.filter_cons_of_neg (by simpa using hqa)]
        exact ih hf

theorem mapGet_eq_none_iff (m : List (Str × CacheEntry)) (k : Str) :
    mapGet m k = none ↔ ∀ e, (k, e) ∉ m := by
  unfold mapGet
  rw [Option.map_eq_none']
  rw [List.find?_eq_none]
  constructor
  · intro h e he
    have := h (k, e) he
    simp at this
  · intro h x hx
    simp only [decide_eq_true_eq]
    intro hxk
    exact h x.2 (by rw [← hxk]; exact hx)

theorem mapGet_eq_of_mem_nodup (m : List (Str × CacheEntry)) (k : Str)
    (e : CacheEntry) (hmem : (k, e) ∈ m) (hnd : (m.map Prod.fst).Nodup) :
    mapGet m k = some e := by
  induction m with
  | nil => simp at hmem
  | cons a t ih =>
    rcases List.mem_cons.mp hmem with h | h
    · rw [← h]
      simp [mapGet, List.find?_cons_of_pos]
    · rw [List.map_cons] at hnd
      have hnd' := List.nodup_cons.mp hnd
      have hka : ¬ (a.1 = k) := by
        intro hk
        exact hnd'.1 (by rw [hk]; exact List.mem_map.mpr ⟨(k, e), h, rfl⟩)
      have ht := ih h hnd'.2
      unfold mapGet at ht ⊢
      rw [List.find?_cons_of_neg _ (by simpa using hka)]
      exact ht

theorem mem_of_mapGet_eq_some (m : List (Str × CacheEntry)) (k : Str)
    (e : CacheEntry) (h : mapGet m k = some e) : (k, e) ∈ m := by
  unfold mapGet at h
  cases hx : m.find? (fun p => p.1 = k) with
  | none => rw [hx] at h; simp at h
  | some v =>
    rw [hx] at h
    have hv : v.2 = e := by simpa using h
    have hmem := List.mem_of_find?_eq_some hx
    have hk : v.1 = k := by simpa using List.find?_some hx
    have : v = (k, e) := by cases v; simp_all
    rw [← this]
    exact hmem

theorem mapGet_mapSet_self (m : List (Str × CacheEntry)) (u : Str)
    (v : CacheEntry) : mapGet (mapSet m u v) u = some v := by
  unfold mapSet
  by_cases hany : m.any (fun p => p.1 = u) = true
  · simp only [hany, if_true]
    have hsome : (m.find? (fun p => p.1 = u)).isSome := by
      rw [List.find?_isSome]
      simpa using List.any_eq_true.mp hany
    obtain ⟨x, hx⟩ := Option.isSome_iff_exists.mp hsome
    have hxu : x.1 = u := by simpa using List.find?_some hx
    unfold mapGet
    rw [List.find?_map]
    have hcomp : ((fun q : Str × CacheEntry => decide (q.1 = u)) ∘
        (fun p : Str × CacheEntry => if p.1 = u then (u, v) else p)) =
        fun p : Str × CacheEntry => decide (p.1 = u) := by
      funext p
      by_cases h : p.1 = u <;> simp [h]
    rw [hcomp, hx]
    simp [hxu]
  · simp only [hany, if_false, Bool.false_eq_true]
    unfold mapGet
    rw [List.find?_append]
    have h1 : m.find? (fun p => p.1 = u) = none := by
      rw [List.find?_eq_none]
      intro x hx
      simp only [decide_eq_true_eq]
      intro hxu
      exact hany (List.any_eq_true.mpr ⟨x, hx, by simpa using hxu⟩)
    rw [h1]
    simp

theorem pruneCache_eq_filter_of_le (now : Nat) (m : List (Str × CacheEntry))
    (h : m.length ≤ CACHE_MAX_ENTRIES) :
    pruneCache now m = m.filter (fun p => now - p.2.ts < CACHE_TTL_MS) := by
  unfold pruneCache
  have hle := List.length_filter_le (fun p => decide (now - p.2.ts < CACHE_TTL_MS)) m
  have h0 : (m.filter (fun p => now - p.2.ts < CACHE_TTL_MS)).length -
      CACHE_MAX_ENTRIES = 0 := by omega
  rw [h0, List.drop_zero]

theorem mapGet_pruneCache_fresh (now : Nat) (m : List (Str × CacheEntry))
    (u : Str) (e : CacheEntry) (hlen : m.length ≤ CACHE_MAX_ENTRIES)
    (hget : mapGet m u = some e) (hfresh : now - e.ts < CACHE_TTL_MS) :
    mapGet (pruneCache now m) u = some e := by
  rw [pruneCache_eq_filter_of_le now m hlen]
  unfold mapGet at hget ⊢
  cases hx : m.find? (fun p => p.1 = u) with
  | none => rw [hx] at hget; simp at hget
  | some x =>
    rw [hx] at hget
    have hx2 : x.2 = e := by simpa using hget
    rw [find?_filter_of_find? m _ _ x hx (by simp [hx2, hfresh])]
    simpa using hx2

theorem mem_pruneCache_sub (now : Nat) (m : List (Str × CacheEntry))
    (y : Str × CacheEntry) (h : y ∈ pruneCache now m) : y ∈ m := by
  unfold pruneCache at h
  exact List.filter_sublist m |>.subset (List.drop_subset _ _ h)

theorem mem_pruneCache_keeps (now : Nat) (m : List (Str × CacheEntry))
    (y : Str × CacheEntry) (h : y ∈ pruneCache now m) :
    now - y.2.ts < CACHE_TTL_MS := by
  unfold pruneCache at h
  have := List.drop_subset _ _ h
  simpa using (List.mem_filter.mp this).2

theorem hasFresh_pruneCache_false (now : Nat) (m : List (Str × CacheEntry))
    (u : Str) (hnd : (m.map Prod.fst).Nodup)
    (h : hasFresh now m u = false) : hasFresh now (pruneCache now m) u = false := by
  unfold hasFresh
  cases hm : mapGet (pruneCache now m) u with
  | none => rfl
  | some e' =>
    exfalso
    have hmem := mem_of_mapGet_eq_some _ _ _ hm
    have hfresh : now - e'.ts < CACHE_TTL_MS :=
      mem_pruneCache_keeps now m (u, e') hmem
    have horig := mapGet_eq_of_mem_nodup m u e' (mem_pruneCache_sub now m _ hmem) hnd
    unfold hasFresh at h
    rw [horig] at h
    simp at h
    omega

theorem mem_mapSet (m : List (Str × CacheEntry)) (u : Str) (v : CacheEntry)
    (y : Str × CacheEntry) (h : y ∈ mapSet m u v) : y = (u, v) ∨ y ∈ m := by
  unfold mapSet at h
  by_cases hany : m.any (fun p => p.1 = u) = true
  · rw [if_pos hany] at h
    obtain ⟨x, hx, hfx⟩ := List.mem_map.mp h
    by_cases hxu : x.1 = u
    · left; rw [← hfx]; simp [hxu]
    · right; rw [← hfx]; simpa [hxu] using hx
  · rw [if_neg hany] at h
    rcases List.mem_append.mp h with h' | h'
    · exact Or.inr h'
    · exact Or.inl (by simpa using h')

theorem mapGet_prune_mapSet_other (now : Nat) (m : List (Str × CacheEntry))
    (u k : Str) (v : CacheEntry) (hku : k ≠ u) (hk : mapGet m k = none) :
    mapGet (pruneCache now (mapSet m u v)) k = none := by
  apply (mapGet_eq_none_iff _ _).mpr
  intro e hmem
  have h1 := mem_pruneCache_sub _ _ _ hmem
  rcases mem_mapSet m u v (k, e) h1 with h2 | h2
  · exact hku (by simpa using congrArg Prod.fst h2)
  · exact (mapGet_eq_none_iff m k).mp hk e h2

theorem length_mapSet_update (m : List (Str × CacheEntry)) (u : Str)
    (v : CacheEntry) (hany : m.any (fun p => p.1 = u) = true) :
    (mapSet m u v).length = m.length := by
  unfold mapSet
  rw [if_pos hany, List.length_map]

/-- After a store of a fresh entry into a within-capacity cache, pruning
keeps that entry retrievable. -/
theorem mapGet_prune_mapSet_self (now : Nat) (m : List (Str × CacheEntry))
    (u : Str) (p : Post) (hlen : m.length ≤ CACHE_MAX_ENTRIES) :
    mapGet (pruneCache now (mapSet m u ⟨now, p⟩)) u = some ⟨now, p⟩ := by
  have hfresh : now - (⟨now, p⟩ : CacheEntry).ts < CACHE_TTL_MS := by
    simp [CACHE_TTL_MS]
  by_cases hany : m.any (fun q => q.1 = u) = true
  · have hlen2 : (mapSet m u ⟨now, p⟩).length ≤ CACHE_MAX_ENTRIES := by
      rw [length_mapSet_update m u _ hany]; exact hlen
    exact mapGet_pruneCache_fresh now _ u _ hlen2 (mapGet_mapSet_self m u _) hfresh
  · -- append case: the new entry sits at the very end, so front eviction
    -- (at most one slot here) cannot remove it
    have hset : mapSet m u ⟨now, p⟩ = m ++ [(u, ⟨now, p⟩)] := by
      unfold mapSet
      rw [if_neg hany]
    have hknone : mapGet m u = none := by
      apply (mapGet_eq_none_iff _ _).mpr
      intro e hmem
      exact absurd (List.any_eq_true.mpr ⟨(u, e), hmem, by simp⟩) hany
    unfold pruneCache
    rw [hset, List.filter_append]
    have hone : List.filter (fun q => decide (now - q.2.ts < CACHE_TTL_MS))
        [(u, (⟨now, p⟩ : CacheEntry))] = [(u, ⟨now, p⟩)] := by
      simp [List.filter_cons, CACHE_TTL_MS]
    rw [hone]
    set fm := m.filter (fun q => decide (now - q.2.ts < CACHE_TTL_MS)) with hfm
    have hfml : fm.length ≤ m.length := List.length_filter_le _ m
    have hn : (fm ++ [(u, (⟨now, p⟩ : CacheEntry))]).length - CACHE_MAX_ENTRIES ≤
        fm.length := by
      have h60 : CACHE_MAX_ENTRIES = 60 := rfl
      simp only [List.length_append, List.length_singleton]
      omega
    rw [List.drop_append_of_le_length hn]
    unfold mapGet
    rw [List.find?_append]
    have hdropnone : (fm.drop ((fm ++ [(u, (⟨now, p⟩ : CacheEntry))]).length -
        CACHE_MAX_ENTRIES)).find? (fun q => q.1 = u) = none := by
      rw [List.find?_eq_none]
      intro x hx
      simp only [decide_eq_true_eq]
      intro hxu
      have hxm : x ∈ m := List.filter_sublist m |>.subset (List.drop_subset _ _ hx)
      have := (mapGet_eq_none_iff m u).mp hknone x.2
      rw [← hxu] at this
      exact this (by simpa using hxm)
    rw [hdropnone]
    simp

theorem bumped_cache (now : Nat) (st : ClientState) :
    (bumped now st).cache = (if (st.opCounter + 1) % 12 = 0 then
      pruneCache now st.cache else st.cache) := rfl

/-- On a fresh cache hit, `getPost` returns the cached post with no tool
call at all. -/
theorem getPost_hit (env : Env) (st : ClientState) (u : Str) (e : CacheEntry)
    (hlen : st.cache.length ≤ CACHE_MAX_ENTRIES)
    (hget : mapGet st.cache u = some e)
    (hfresh : env.now - e.ts < CACHE_TTL_MS) :
    getPost env st u = (.ok e.post, bumped env.now st, []) := by
  have hget0 : mapGet (bumped env.now st).cache u = some e := by
    rw [bumped_cache]
    by_cases h12 : (st.opCounter + 1) % 12 = 0
    · rw [if_pos h12]
      exact mapGet_pruneCache_fresh env.now st.cache u e hlen hget hfresh
    · rw [if_neg h12]
      exact hget
  unfold getPost
  rw [hget0]
  simp only [hfresh, if_true]

/-- Without a fresh cache entry, `getPost` is exactly the fetch path on the
bumped state. -/
theorem getPost_miss (env : Env) (st : ClientState) (u : Str)
    (hnd : (st.cache.map Prod.fst).Nodup)
    (hmiss : hasFresh env.now st.cache u = false) :
    getPost env st u = fetchPath env (bumped env.now st) u := by
  have hmiss0 : hasFresh env.now (bumped env.now st).cache u = false := by
    rw [bumped_cache]
    by_cases h12 : (st.opCounter + 1) % 12 = 0
    · rw [if_pos h12]
      exact hasFresh_pruneCache_false env.now st.cache u hnd hmiss
    · rw [if_neg h12]
      exact hmiss
  unfold getPost
  cases hm : mapGet (bumped env.now st).cache u with
  | none => rfl
  | some e =>
    unfold hasFresh at hmiss0
    rw [hm] at hmiss0
    simp at hmiss0
    simp only []
    rw [if_neg (by omega)]

theorem pruneCache_length_le (now : Nat) (m : List (Str × CacheEntry)) :
    (pruneCache now m).length ≤ m.length := by
  unfold pruneCache
  have h1 := List.length_filter_le (fun p => decide (now - p.2.ts < CACHE_TTL_MS)) m
  rw [List.length_drop]
  omega

theorem mapGet_pruneCache_none (now : Nat) (m : List (Str × CacheEntry))
    (k : Str) (h : mapGet m k = none) : mapGet (pruneCache now m) k = none := by
  apply (mapGet_eq_none_iff _ _).mpr
  intro e hmem
  exact (mapGet_eq_none_iff m k).mp h e (mem_pruneCache_sub now m _ hmem)

theorem bumped_cache_length (now : Nat) (st : ClientState)
    (h : st.cache.length ≤ CACHE_MAX_ENTRIES) :
    (bumped now st).cache.length ≤ CACHE_MAX_ENTRIES := by
  rw [bumped_cache]
  by_cases h12 : (st.opCounter + 1) % 12 = 0
  · rw [if_pos h12]
    exact (pruneCache_length_le now st.cache).trans h
  · rw [if_neg h12]
    exact h

theorem bumped_mapGet_fresh (now : Nat) (st : ClientState) (u : Str)
    (e : CacheEntry) (hlen : st.cache.length ≤ CACHE_MAX_ENTRIES)
    (hget : mapGet st.cache u = some e) (hfresh : now - e.ts < CACHE_TTL_MS) :
    mapGet (bumped now st).cache u = some e := by
  rw [bumped_cache]
  by_cases h12 : (st.opCounter + 1) % 12 = 0
  · rw [if_pos h12]
    exact mapGet_pruneCache_fresh now st.cache u e hlen hget hfresh
  · rw [if_neg h12]
    exact hget

theorem bumped_mapGet_none (now : Nat) (st : ClientState) (k : Str)
    (h : mapGet st.cache k = none) : mapGet (bumped now st).cache k = none := by
  rw [bumped_cache]
  by_cases h12 : (st.opCounter + 1) % 12 = 0
  · rw [if_pos h12]
    exact mapGet_pruneCache_none now st.cache k h
  · rw [if_neg h12]
    exact h

theorem resolveTool_cache (env : Env) (st : ClientState) (r : Run) :
    (resolveTool env st r).2.1.cache = st.cache := by
  unfold resolveTool
  repeat' split
  all_goals rfl

theorem detectToolName_log (env : Env) (r : Run) :
    (detectToolName env r).2.log = r.log := by
  unfold detectToolName
  repeat' split
  all_goals rfl

theorem resolveTool_log (env : Env) (st : ClientState) (r : Run) :
    (resolveTool env st r).2.2.log = r.log := by
  unfold resolveTool
  cases hc : env.cfgToolName with
  | some s => rfl
  | none =>
    cases hd : st.detectedToolName with
    | some d => rfl
    | none =>
      cases hdt : detectToolName env r with
      | mk res r1 =>
        have hl : r1.log = r.log := by
          have := detectToolName_log env r
          rw [hdt] at this
          exact this
        cases res <;> simpa using hl

theorem feedFallback_cache (env : Env) (st : ClientState)
    (finalUrl toolName msg : Str) (tr : Json) (r : Run) :
    (feedFallback env st finalUrl toolName msg tr r).2.1.cache = st.cache := by
  unfold feedFallback
  repeat' split
  all_goals rfl

/-- Evaluated form of `finishPost`. -/
theorem finishPost_eq (env : Env) (st : ClientState) (u f : Str) (tr : Json)
    (r : Run) :
    finishPost env st u f tr r =
      (.ok (normalizePost f (rawOfText env tr)),
        { st with
          cache :=
            pruneCache env.now
              (mapSet st.cache u
                ⟨env.now, normalizePost f (rawOfText env tr)⟩) },
        r.log) := rfl

/-- Any successful outcome of `afterInvoke` is a normalised post stored
under the originally requested URL. -/
theorem finishPost_ok_inv (env : Env) (st : ClientState) (u f : Str)
    (tr : Json) (r : Run) (p : Post) (st' : ClientState) (log : List ToolCall)
    (h : finishPost env st u f tr r = (.ok p, st', log)) :
    p = normalizePost f (rawOfText env tr) ∧
      st'.cache = pruneCache env.now (mapSet st.cache u ⟨env.now, p⟩) := by
  rw [finishPost_eq] at h
  have h1 := congrArg Prod.fst h
  have h2 := congrArg (fun x => x.2.1.cache) h
  simp only [] at h1 h2
  have hp : normalizePost f (rawOfText env tr) = p := by simpa using h1
  constructor
  · exact hp.symm
  · rw [← h2]
    show pruneCache env.now
      (mapSet st.cache u ⟨env.now, normalizePost f (rawOfText env tr)⟩) = _
    rw [hp]

theorem afterInvoke_ok (env : Env) (st : ClientState) (u f tn : Str)
    (tr : Json) (r : Run) (p : Post) (st' : ClientState) (log : List ToolCall)
    (h : afterInvoke env st u f tn tr r = (.ok p, st', log)) :
    (∃ tr2, p = normalizePost f (rawOfText env tr2)) ∧
      st'.cache = pruneCache env.now (mapSet st.cache u ⟨env.now, p⟩) := by
  unfold afterInvoke at h
  split at h
  · -- isError true: fallback cascade, then either throw or finish
    rcases hr1 : retryOriginalUrl env u f tn (toolErrMsg tr) tr r with ⟨tr1, r1⟩
    simp only [hr1] at h
    rcases hr2 : feedFallback env st f tn (toolErrMsg tr) tr1 r1 with ⟨tr2, st2, r2⟩
    simp only [hr2] at h
    split at h
    · simp at h
    · have hc : st2.cache = st.cache := by
        have := feedFallback_cache env st f tn (toolErrMsg tr) tr1 r1
        rw [hr2] at this
        exact this
      obtain ⟨hp, hcc⟩ := finishPost_ok_inv env st2 u f tr2 r2 p st' log h
      exact ⟨⟨tr2, hp⟩, by rw [hcc, hc]⟩
  · -- isError false: straight to finishPost
    obtain ⟨hp, hcc⟩ := finishPost_ok_inv env st u f tr r p st' log h
    exact ⟨⟨tr, hp⟩, hcc⟩

/-- Any successful outcome of `invokePhase` is a normalised post stored
under the originally requested URL. -/
theorem invokePhase_ok (env : Env) (st : ClientState) (u f tn : Str)
    (fa : FeedArgs) (r : Run) (p : Post) (st' : ClientState)
    (log : List ToolCall)
    (h : invokePhase env st u f tn fa r = (.ok p, st', log)) :
    (∃ tr2, p = normalizePost f (rawOfText env tr2)) ∧
      st'.cache = pruneCache env.now (mapSet st.cache u ⟨env.now, p⟩) := by
  unfold invokePhase at h
  rcases hi : invokeTool env r tn f fa with ⟨res, r1⟩
  cases res with
  | ok tr =>
    simp only [hi] at h
    exact afterInvoke_ok env st u f tn tr r1 p st' log h
  | error e =>
    simp only [hi] at h
    rcases hg : doGetClient env r1 with ⟨cerr, r2⟩
    cases cerr with
    | some e2 => simp only [hg] at h; simp at h
    | none =>
      simp only [hg] at h
      rcases hi2 : invokeTool env r2 tn f fa with ⟨res2, r3⟩
      cases res2 with
      | ok tr =>
        simp only [hi2] at h
        exact afterInvoke_ok env
          { st with connectSeq := st.connectSeq + 1, detectedToolName := none }
          u f tn tr r3 p st' log h
      | error e2 => simp only [hi2] at h; simp at h

/-- Any successful outcome of `fetchPath` is a normalised post stored under
the originally requested URL. -/
theorem fetchPath_ok (env : Env) (st : ClientState) (u : Str) (p : Post)
    (st' : ClientState) (log : List ToolCall)
    (h : fetchPath env st u = (.ok p, st', log)) :
    (∃ tr2, p = normalizePost (env.resolve u) (rawOfText env tr2)) ∧
      st'.cache = pruneCache env.now (mapSet st.cache u ⟨env.now, p⟩) := by
  unfold fetchPath at h
  split at h
  next e r1 heq => simp at h
  next r1 heq =>
    split at h
    next e st1 r2 heq2 => simp at h
    next tn st1 r2 heq2 =>
      have hc : st1.cache = st.cache := by
        have := resolveTool_cache env st r1
        rw [heq2] at this
        exact this
      split at h
      · split at h
        · simp at h
        next fa heq3 =>
          have := invokePhase_ok env st1 u (env.resolve u) tn fa r2 p st' log h
          rw [hc] at this
          exact this
      · have := invokePhase_ok env st1 u (env.resolve u) tn ⟨[], []⟩ r2 p st' log h
        rw [hc] at this
        exact this

theorem doCallTool_log (env : Env) (r : Run) (c : ToolCall) :
    (doCallTool env r c).2.log = r.log ++ [c] := rfl

theorem doGetClient_log (env : Env) (r : Run) :
    (doGetClient env r).2.log = r.log := rfl

theorem finishPost_log (env : Env) (st : ClientState) (u f : Str) (tr : Json)
    (r : Run) : (finishPost env st u f tr r).2.2 = r.log := rfl

/-- The calls issued by the candidate-argument cascade: at least one and at
most one per candidate shape, each to the same tool with one of the
candidate argument lists. -/
theorem callFallbackGo_log (env : Env) (tn : Str) :
    ∀ (cands : List (List (Str × ArgVal))) (r : Run) (le : Option JsError),
      ∃ t, (callFallbackGo env tn r le cands).2.log = r.log ++ t ∧
        t.length ≤ cands.length ∧ (cands ≠ [] → 1 ≤ t.length) ∧
        ∀ c ∈ t, c.name = tn ∧ c.args ∈ cands := by
  intro cands
  induction cands with
  | nil =>
    intro r le
    exact ⟨[], by simp [callFallbackGo], by simp, by simp, by simp⟩
  | cons args rest ih =>
    intro r le
    unfold callFallbackGo
    rcases hdc : doCallTool env r ⟨tn, args⟩ with ⟨res, r1⟩
    have hl1 : r1.log = r.log ++ [⟨tn, args⟩] := by
      have := doCallTool_log env r ⟨tn, args⟩
      rw [hdc] at this
      exact this
    cases res with
    | ok v =>
      simp only [hdc]
      refine ⟨[⟨tn, args⟩], by simpa using hl1, by simp, by simp, ?_⟩
      intro c hc
      rcases List.mem_cons.mp hc with h | h
      · rw [h]; exact ⟨rfl, by simp⟩
      · simp at h
    | error e =>
      simp only [hdc]
      obtain ⟨t, ht, hlen, _, hmem⟩ := ih r1 (some e)
      refine ⟨⟨tn, args⟩ :: t, ?_, by simpa using Nat.succ_le_succ hlen,
        by simp, ?_⟩
      · rw [ht, hl1]; simp
      · intro c hc
        rcases List.mem_cons.mp hc with h | h
        · rw [h]; exact ⟨rfl, by simp⟩
        · obtain ⟨h1, h2⟩ := hmem c h
          exact ⟨h1, List.mem_cons_of_mem _ h2⟩

theorem detectUrlToolFallbackName_log (env : Env) (r : Run) :
    (detectUrlToolFallbackName env r).2.log = r.log := by
  unfold detectUrlToolFallbackName
  repeat' split
  all_goals rfl

theorem retryOriginalUrl_log (env : Env) (u f tn msg : Str) (tr : Json)
    (r : Run) :
    ∃ t, (retryOriginalUrl env u f tn msg tr r).2.log = r.log ++ t := by
  unfold retryOriginalUrl
  split
  · rcases hg : doGetClient env r with ⟨cerr, ra⟩
    have hra : ra.log = r.log := by
      have := doGetClient_log env r
      rw [hg] at this
      exact this
    cases cerr with
    | some e =>
      simp only [hg]
      exact ⟨[], by simp [hra]⟩
    | none =>
      simp only [hg]
      rcases hc : callToolWithFallbackArgs env ra tn u with ⟨res, rb⟩
      obtain ⟨t, ht, _, _, _⟩ := callFallbackGo_log env tn (urlArgCandidates u) ra none
      rw [show callFallbackGo env tn ra none (urlArgCandidates u) = (res, rb)
        from hc] at ht
      cases res with
      | ok rr =>
        simp only [hc]
        exact ⟨t, by simpa [hra] using ht⟩
      | error e =>
        simp only [hc]
        exact ⟨t, by simpa [hra] using ht⟩
  · exact ⟨[], by simp⟩

theorem feedFallback_log (env : Env) (st : ClientState) (f tn msg : Str)
    (tr : Json) (r : Run) :
    ∃ t, (feedFallback env st f tn msg tr r).2.2.log = r.log ++ t := by
  unfold feedFallback
  split
  · rcases hg : doGetClient env r with ⟨cerr, ra⟩
    have hra : ra.log = r.log := by
      have := doGetClient_log env r
      rw [hg] at this
      exact this
    cases cerr with
    | some e =>
      simp only [hg]
      exact ⟨[], by simp [hra]⟩
    | none =>
      simp only [hg]
      rcases hd : detectUrlToolFallbackName env ra with ⟨dres, rb⟩
      have hrb : rb.log = ra.log := by
        have := detectUrlToolFallbackName_log env ra
        rw [hd] at this
        exact this
      cases dres with
      | error e =>
        simp only [hd]
        exact ⟨[], by simp [hrb, hra]⟩
      | ok alt =>
        cases alt with
        | none =>
          simp only [hd]
          exact ⟨[], by simp [hrb, hra]⟩
        | some a =>
          simp only [hd]
          rcases hc : callToolWithFallbackArgs env rb a f with ⟨res, rc⟩
          obtain ⟨t, ht, _, _, _⟩ :=
            callFallbackGo_log env a (urlArgCandidates f) rb none
          rw [show callFallbackGo env a rb none (urlArgCandidates f) = (res, rc)
            from hc] at ht
          cases res with
          | error e =>
            simp only [hc]
            exact ⟨t, by show rc.log = _; rw [ht, hrb, hra]⟩
          | ok ar =>
            simp only [hc]
            split
            · exact ⟨t, by show rc.log = _; rw [ht, hrb, hra]⟩
            · exact ⟨t, by show rc.log = _; rw [ht, hrb, hra]⟩
  · exact ⟨[], by simp⟩

theorem afterInvoke_log (env : Env) (st : ClientState) (u f tn : Str)
    (tr : Json) (r : Run) :
    ∃ t, (afterInvoke env st u f tn tr r).2.2 = r.log ++ t := by
  unfold afterInvoke
  split
  · rcases hr1 : retryOriginalUrl env u f tn (toolErrMsg tr) tr r with ⟨tr1, r1⟩
    obtain ⟨t1, ht1⟩ := retryOriginalUrl_log env u f tn (toolErrMsg tr) tr r
    rw [hr1] at ht1
    rcases hr2 : feedFallback env st f tn (toolErrMsg tr) tr1 r1 with ⟨tr2, st2, r2⟩
    obtain ⟨t2, ht2⟩ := feedFallback_log env st f tn (toolErrMsg tr) tr1 r1
    rw [hr2] at ht2
    simp only [hr1, hr2]
    split
    · exact ⟨t1 ++ t2, by show r2.log = _; rw [ht2, ht1]; simp⟩
    · exact ⟨t1 ++ t2, by rw [finishPost_log, ht2, ht1]; simp⟩
  · exact ⟨[], by rw [finishPost_log]; simp⟩

theorem invokeTool_feed (env : Env) (r : Run) (f : Str) (fa : FeedArgs) :
    invokeTool env r (S "get_feed_detail") f fa =
      doCallTool env r ⟨S "get_feed_detail", feedDetailArgs fa⟩ := if_pos rfl

theorem invokeTool_nonfeed (env : Env) (r : Run) (tn f : Str) (fa : FeedArgs)
    (h : tn ≠ S "get_feed_detail") :
    invokeTool env r tn f fa = callToolWithFallbackArgs env r tn f := if_neg h

/-- When the tool is `get_feed_detail`, the first call issued by the invoke
phase is the single specialised call with the three-field argument object. -/
theorem invokePhase_log_feed (env : Env) (st : ClientState) (u f : Str)
    (fa : FeedArgs) (r : Run) :
    ∃ t, (invokePhase env st u f (S "get_feed_detail") fa r).2.2 =
      r.log ++ ⟨S "get_feed_detail", feedDetailArgs fa⟩ :: t := by
  unfold invokePhase
  simp only [invokeTool_feed]
  rcases hdc : doCallTool env r ⟨S "get_feed_detail", feedDetailArgs fa⟩
    with ⟨res, r1⟩
  have hl1 : r1.log = r.log ++ [⟨S "get_feed_detail", feedDetailArgs fa⟩] := by
    have := doCallTool_log env r ⟨S "get_feed_detail", feedDetailArgs fa⟩
    rw [hdc] at this
    exact this
  cases res with
  | ok tr =>
    simp only [hdc]
    obtain ⟨t, ht⟩ := afterInvoke_log env st u f (S "get_feed_detail") tr r1
    exact ⟨t, by rw [ht, hl1]; simp⟩
  | error e =>
    simp only [hdc]
    rcases hg : doGetClient env r1 with ⟨cerr, r2⟩
    have hl2 : r2.log = r1.log := by
      have := doGetClient_log env r1
      rw [hg] at this
      exact this
    cases cerr with
    | some e2 =>
      simp only [hg]
      exact ⟨[], by show r2.log = _; rw [hl2, hl1]⟩
    | none =>
      simp only [hg]
      rcases hdc2 : doCallTool env r2 ⟨S "get_feed_detail", feedDetailArgs fa⟩
        with ⟨res2, r3⟩
      have hl3 : r3.log =
          r2.log ++ [⟨S "get_feed_detail", feedDetailArgs fa⟩] := by
        have := doCallTool_log env r2 ⟨S "get_feed_detail", feedDetailArgs fa⟩
        rw [hdc2] at this
        exact this
      cases res2 with
      | ok tr =>
        simp only [hdc2]
        obtain ⟨t, ht⟩ := afterInvoke_log env
          { st with connectSeq := st.connectSeq + 1, detectedToolName := none }
          u f (S "get_feed_detail") tr r3
        refine ⟨⟨S "get_feed_detail", feedDetailArgs fa⟩ :: t, ?_⟩
        rw [ht, hl3, hl2, hl1]
        simp
      | error e2 =>
        simp only [hdc2]
        refine ⟨[⟨S "get_feed_detail", feedDetailArgs fa⟩], ?_⟩
        show r3.log = _
        rw [hl3, hl2, hl1]
        simp

end Xhs

/-! ## Decimal ids: injectivity of `natToStr` and order of image ids -/

theorem decodeDigits_append_singleton (l : List Char) (c : Char) :
    decodeDigits (l ++ [c]) = 10 * decodeDigits l + digitVal c := by
  simp [decodeDigits, List.foldl_append, Nat.mul_comm]

theorem digitVal_digitChar (k : Nat) (h : k < 10) :
    digitVal (digitChar k) = k := by
  interval_cases k <;> decide

theorem foldl_decode_generalized (fuel : Nat) :
    ∀ n, n ≤ fuel → decodeDigits (natDigitsGo (fuel + 1) n) = n := by
  induction fuel with
  | zero =>
    intro n hn
    interval_cases n
    decide
  | succ f ih =>
    intro n hn
    by_cases h10 : n < 10
    · have : natDigitsGo (f + 1 + 1) n = [digitChar n] := by
        simp [natDigitsGo, h10]
      rw [this]
      have : decodeDigits [digitChar n] = digitVal (digitChar n) := by
        simp [decodeDigits]
      rw [this, digitVal_digitChar n h10]
    · have hg : natDigitsGo (f + 1 + 1) n =
          natDigitsGo (f + 1) (n / 10) ++ [digitChar (n % 10)] := by
        simp [natDigitsGo, h10]
      rw [hg, decodeDigits_append_singleton]
      have hdiv : n / 10 ≤ f := by omega
      rw [ih (n / 10) hdiv, digitVal_digitChar (n % 10) (Nat.mod_lt _ (by norm_num))]
      omega

theorem decode_natToStr (n : Nat) : decodeDigits (natToStr n) = n :=
  foldl_decode_generalized n n (Nat.le_refl n)

theorem natToStr_injective : Function.Injective natToStr := by
  intro a b h
  have ha := decode_natToStr a
  have hb := decode_natToStr b
  rw [h] at ha
  omega

theorem Xhs.mkImageId_injective : Function.Injective Xhs.mkImageId := by
  intro a b h
  have h2 : natToStr (a + 1) = natToStr (b + 1) :=
    List.append_cancel_left h
  have := natToStr_injective h2
  omega

/-- Every image produced by position `i` carries the id `img_${i + 1}`. -/
theorem Xhs.normalizeItem_id (i : Nat) (item : Json) (img : Xhs.Image)
    (h : Xhs.normalizeItem i item = some img) : img.id = Xhs.mkImageId i := by
  unfold Xhs.normalizeItem at h
  split at h
  · exact absurd h (by simp)
  · split at h
    · split at h
      · cases h; rfl
      · split at h
        · cases h; rfl
        · exact absurd h (by simp)
    · -- non-string descriptor: url branch or data branch
      have hdata : ∀ jm, Xhs.normalizeItemData i item = some jm → jm.id = Xhs.mkImageId i := by
        intro jm hjm
        unfold Xhs.normalizeItemData at hjm
        split at hjm
        · cases hjm; rfl
        · exact absurd hjm (by simp)
      split at h
      · split at h
        · cases h; rfl
        · exact hdata img h
      · exact hdata img h

theorem strInc_cons (a : Nat) (xs : List Nat) (hxs : strInc xs = true)
    (ha : ∀ j ∈ xs, a < j) : strInc (a :: xs) = true := by
  cases xs with
  | nil => rfl
  | cons b t =>
    have hb : a < b := ha b (by simp)
    simp [strInc, hb, hxs]

theorem strInc_pairwise : ∀ xs : List Nat, strInc xs = true →
    xs.Pairwise (· < ·) := by
  intro xs
  induction xs with
  | nil => intro; simp
  | cons a t ih =>
    intro h
    cases t with
    | nil => simp
    | cons b s =>
      have hab : a < b ∧ strInc (b :: s) = true := by
        simpa [strInc] using h
      have htail := ih hab.2
      refine List.pairwise_cons.mpr ⟨?_, htail⟩
      intro y hy
      rcases List.mem_cons.mp hy with rfl | hy'
      · exact hab.1
      · have := (List.pairwise_cons.mp htail).1 y hy'
        omega

/-- The images produced by the loop from position `i`: their ids are the
`mkImageId` images of a strictly increasing list of positions `≥ i`. -/
theorem Xhs.normImagesAux_ids (l : List Json) : ∀ i : Nat,
    ∃ idxs : List Nat, strInc idxs = true ∧ (∀ j ∈ idxs, i ≤ j) ∧
      (Xhs.normImagesAux i l).map Xhs.Image.id = idxs.map Xhs.mkImageId := by
  induction l with
  | nil => intro i; exact ⟨[], rfl, by simp, rfl⟩
  | cons item rest ih =>
    intro i
    obtain ⟨idxs, hinc, hge, hmap⟩ := ih (i + 1)
    cases hitem : Xhs.normalizeItem i item with
    | some img =>
      refine ⟨i :: idxs, ?_, ?_, ?_⟩
      · exact strInc_cons i idxs hinc (fun j hj => Nat.lt_of_succ_le (hge j hj))
      · intro j hj
        rcases List.mem_cons.mp hj with h | hj'
        · omega
        · exact Nat.le_of_succ_le (hge j hj')
      · simp only [Xhs.normImagesAux, hitem, List.map_cons, hmap]
        rw [Xhs.normalizeItem_id i item img hitem]
    | none =>
      refine ⟨idxs, hinc, fun j hj => Nat.le_of_succ_le (hge j hj), ?_⟩
      simp only [Xhs.normImagesAux, hitem, hmap]

/-- Image-id uniqueness and order for every normalised post. -/
theorem Xhs.normalizePost_image_ids (sourceUrl : Str) (raw : Json) :
    ((Xhs.normalizePost sourceUrl raw).images.map Xhs.Image.id).Nodup ∧
      ∃ idxs : List Nat, strInc idxs = true ∧
        (Xhs.normalizePost sourceUrl raw).images.map Xhs.Image.id =
          idxs.map Xhs.mkImageId := by
  have hform : ∃ start l, (Xhs.normalizePost sourceUrl raw).images =
      Xhs.normImagesAux start l := by
    unfold Xhs.normalizePost Xhs.normalizeImages
    split
    · exact ⟨0, _, rfl⟩
    · exact ⟨0, [], rfl⟩
  obtain ⟨start, l, hl⟩ := hform
  obtain ⟨idxs, hinc, _, hmap⟩ := Xhs.normImagesAux_ids l start
  rw [hl, hmap]
  refine ⟨?_, idxs, hinc, rfl⟩
  exact ((strInc_pairwise idxs hinc).imp (fun hab => Nat.ne_of_lt hab)).map
    Xhs.mkImageId (fun a b hne hmk => hne (Xhs.mkImageId_injective hmk))

/-- Claim C10: `extractFeedIdAndToken` is total (it is a Lean function, hence
never throws) and returns either `none` or a record whose `feedId` and
`xsecToken` are both non-empty, for every input string and every behaviour of
the external URL/query parsers. -/
theorem C10_extractFeedIdAndToken_total (parseUrl : Str → Option Xhs.UrlObj)
    (parseQuery : Str → List (Str × Str)) (urlStr : Str) :
    Xhs.extractFeedIdAndToken parseUrl parseQuery urlStr = none ∨
      ∃ fa, Xhs.extractFeedIdAndToken parseUrl parseQuery urlStr = some fa ∧
        fa.feedId ≠ [] ∧ fa.xsecToken ≠ [] := by
  unfold Xhs.extractFeedIdAndToken
  cases hp : parseUrl urlStr with
  | none => exact Or.inl rfl
  | some u =>
    cases hf : Xhs.feedIdOf u with
    | none => exact Or.inl (by simp [hf])
    | some f =>
      cases hx : Xhs.xsecTokenOf parseQuery u with
      | none => exact Or.inl (by simp [hf, hx])
      | some x =>
        by_cases hemp : (f.isEmpty || x.isEmpty) = true
        · exact Or.inl (by simp only [hf, hx]; simp [List.isEmpty_iff] at hemp ⊢; tauto)
        · refine Or.inr ⟨⟨f, x⟩, by simp only [hf, hx]; simp [List.isEmpty_iff] at hemp ⊢; tauto, ?_, ?_⟩
          · intro h
            subst h
            simp at hemp
          · intro h
            subst h
            simp at hemp

/-! ## Claims C2 and C3 -/

/-- Claim C2: after a successful `getPost(u)` the resulting post is stored
in the cache keyed by the originally requested URL `u` — and under no key
that was previously absent other than `u` itself, in particular not under a
redirect-resolved URL different from `u`; and every `getPost` on a URL whose
cache entry is present and younger than the TTL returns the cached post with
an empty tool-call log (no new tool call).  The `cacheWF` hypothesis is the
reachable-state invariant (unique `Map` keys, capacity bound maintained by
the prune after every store). -/
theorem C2_cache_store_and_hit (env : Xhs.Env) (st : Xhs.ClientState) (u : Str)
    (hwf : Xhs.cacheWF st.cache) :
    (∀ p st' log, Xhs.getPost env st u = (.ok p, st', log) →
      ∃ e, Xhs.mapGet st'.cache u = some e ∧ e.post = p) ∧
    (∀ e, Xhs.mapGet st.cache u = some e → env.now - e.ts < Xhs.CACHE_TTL_MS →
      Xhs.getPost env st u = (.ok e.post, Xhs.bumped env.now st, [])) ∧
    (∀ k, k ≠ u → Xhs.mapGet st.cache k = none →
      ∀ p st' log, Xhs.getPost env st u = (.ok p, st', log) →
        Xhs.mapGet st'.cache k = none) := by
  obtain ⟨hnd, hlen⟩ := hwf
  refine ⟨?_, ?_, ?_⟩
  · intro p st' log h
    by_cases hf : Xhs.hasFresh env.now st.cache u = true
    · unfold Xhs.hasFresh at hf
      cases hget : Xhs.mapGet st.cache u with
      | none => rw [hget] at hf; simp at hf
      | some e =>
        rw [hget] at hf
        simp only [decide_eq_true_eq] at hf
        rw [Xhs.getPost_hit env st u e hlen hget hf] at h
        have h1 := congrArg Prod.fst h
        have h2 := congrArg (fun x => x.2.1) h
        simp only [] at h1 h2
        have hp : e.post = p := by simpa using h1
        refine ⟨e, ?_, hp⟩
        rw [← h2]
        exact Xhs.bumped_mapGet_fresh env.now st u e hlen hget hf
    · have hf' : Xhs.hasFresh env.now st.cache u = false := by
        simpa using hf
      rw [Xhs.getPost_miss env st u hnd hf'] at h
      obtain ⟨_, hcc⟩ := Xhs.fetchPath_ok env _ u p st' log h
      refine ⟨⟨env.now, p⟩, ?_, rfl⟩
      rw [hcc]
      exact Xhs.mapGet_prune_mapSet_self env.now _ u p
        (Xhs.bumped_cache_length env.now st hlen)
  · intro e hget hfresh
    exact Xhs.getPost_hit env st u e hlen hget hfresh
  · intro k hk hnone p st' log h
    by_cases hf : Xhs.hasFresh env.now st.cache u = true
    · unfold Xhs.hasFresh at hf
      cases hget : Xhs.mapGet st.cache u with
      | none => rw [hget] at hf; simp at hf
      | some e =>
        rw [hget] at hf
        simp only [decide_eq_true_eq] at hf
        rw [Xhs.getPost_hit env st u e hlen hget hf] at h
        have h2 := congrArg (fun x => x.2.1) h
        simp only [] at h2
        rw [← h2]
        exact Xhs.bumped_mapGet_none env.now st k hnone
    · have hf' : Xhs.hasFresh env.now st.cache u = false := by
        simpa using hf
      rw [Xhs.getPost_miss env st u hnd hf'] at h
      obtain ⟨_, hcc⟩ := Xhs.fetchPath_ok env _ u p st' log h
      rw [hcc]
      exact Xhs.mapGet_prune_mapSet_other env.now _ u k ⟨env.now, p⟩ hk
        (Xhs.bumped_mapGet_none env.now st k hnone)

/-- Witness for C2: at a concrete state with a fresh cached entry, `getPost`
returns the cached post and issues no tool call. -/
theorem C2_cache_store_and_hit_witness :
    Xhs.getPost wEnv wStHit (S "u") =
      (.ok wPost, Xhs.bumped wEnv.now wStHit, []) :=
  (C2_cache_store_and_hit wEnv wStHit (S "u")
    ⟨by decide, by decide⟩).2.1 ⟨990, wPost⟩ (by decide) (by decide)

/-- Claim C3: for every post fetched by `getPost` (cache-miss path), the
image ids are pairwise distinct and are the `img_${i+1}` renderings of a
strictly increasing list of descriptor positions, i.e. they preserve the
fetch order of the image descriptors in the tool response. -/
theorem C3_image_ids_unique_ordered (env : Xhs.Env) (st : Xhs.ClientState)
    (u : Str) (hwf : Xhs.cacheWF st.cache)
    (hmiss : Xhs.hasFresh env.now st.cache u = false)
    (p : Xhs.Post) (st' : Xhs.ClientState) (log : List Xhs.ToolCall)
    (h : Xhs.getPost env st u = (.ok p, st', log)) :
    (p.images.map Xhs.Image.id).Nodup ∧
      ∃ idxs : List Nat, strInc idxs = true ∧
        p.images.map Xhs.Image.id = idxs.map Xhs.mkImageId := by
  rw [Xhs.getPost_miss env st u hwf.1 hmiss] at h
  obtain ⟨⟨tr2, hp⟩, _⟩ := Xhs.fetchPath_ok env _ u p st' log h
  rw [hp]
  exact Xhs.normalizePost_image_ids _ _

/-- Witness for C3 at a concrete fetch returning two images. -/
theorem C3_image_ids_unique_ordered_witness :
    (wPostFetched.images.map Xhs.Image.id).Nodup ∧
      ∃ idxs : List Nat, strInc idxs = true ∧
        wPostFetched.images.map Xhs.Image.id = idxs.map Xhs.mkImageId :=
  C3_image_ids_unique_ordered wEnv wStMiss (S "u") ⟨by decide, by decide⟩
    (by decide) wPostFetched wStFetched wLogFetched (by rfl)

/-- Counterexample to claim C1 as stated: on a concrete run whose tool is
`get_feed_detail` and whose extraction succeeds, the single tool call issued
by `getPost` carries a third argument field `load_all_comments` besides
`feed_id` and `xsec_token` — so the call is not made with exactly those two
fields. -/
theorem C1_counterexample :
    (Xhs.getPost wEnvFeed wStMiss (S "u")).2.2 =
      [⟨S "get_feed_detail",
        [(S "feed_id", Xhs.ArgVal.s (S "abcdefgh")),
          (S "xsec_token", Xhs.ArgVal.s (S "T1")),
          (S "load_all_comments", Xhs.ArgVal.b false)]⟩] ∧
      (Xhs.getPost wEnvFeed wStMiss (S "u")).2.2.map
          (fun c => c.args.map Prod.fst) ≠
        [[S "feed_id", S "xsec_token"]] := by
  constructor
  · rfl
  · decide

/-- Claim C1 (amended): when the resolved tool name is `get_feed_detail` and
extraction yields `{feedId, xsecToken}`, the first tool call `getPost`
issues carries exactly three argument fields — `feed_id` and `xsec_token`
holding the extracted values, plus `load_all_comments` set to `false`. -/
theorem C1_feed_detail_call (env : Xhs.Env) (st : Xhs.ClientState) (u : Str)
    (fa : Xhs.FeedArgs) (st1 : Xhs.ClientState) (r2 : Xhs.Run)
    (hnd : (st.cache.map Prod.fst).Nodup)
    (hmiss : Xhs.hasFresh env.now st.cache u = false)
    (hclient : env.getClientErr 0 = none)
    (hres : Xhs.resolveTool env (Xhs.bumped env.now st) ⟨1, 0, 0, []⟩ =
      (.ok (S "get_feed_detail"), st1, r2))
    (hext : Xhs.extractFeedIdAndToken env.parseUrl env.parseQuery
      (env.resolve u) = some fa) :
    ∃ t, (Xhs.getPost env st u).2.2 =
      Xhs.ToolCall.mk (S "get_feed_detail")
        [(S "feed_id", Xhs.ArgVal.s fa.feedId),
          (S "xsec_token", Xhs.ArgVal.s fa.xsecToken),
          (S "load_all_comments", Xhs.ArgVal.b false)] :: t := by
  rw [Xhs.getPost_miss env st u hnd hmiss]
  unfold Xhs.fetchPath
  have hdg : Xhs.doGetClient env ⟨0, 0, 0, []⟩ = (none, ⟨1, 0, 0, []⟩) := by
    unfold Xhs.doGetClient
    rw [hclient]
  simp only [hdg, hres]
  rw [if_pos trivial]
  simp only [hext]
  have hr2log : r2.log = [] := by
    have := Xhs.resolveTool_log env (Xhs.bumped env.now st) ⟨1, 0, 0, []⟩
    rw [hres] at this
    exact this
  obtain ⟨t, ht⟩ := Xhs.invokePhase_log_feed env st1 u (env.resolve u) fa r2
  refine ⟨t, ?_⟩
  rw [ht, hr2log]
  simp [Xhs.feedDetailArgs]

/-- Witness for the amended C1 at the concrete feed-detail environment. -/
theorem C1_feed_detail_call_witness :
    ∃ t, (Xhs.getPost wEnvFeed wStMiss (S "u")).2.2 =
      Xhs.ToolCall.mk (S "get_feed_detail")
        [(S "feed_id", Xhs.ArgVal.s (S "abcdefgh")),
          (S "xsec_token", Xhs.ArgVal.s (S "T1")),
          (S "load_all_comments", Xhs.ArgVal.b false)] :: t :=
  C1_feed_detail_call wEnvFeed wStMiss (S "u") ⟨S "abcdefgh", S "T1"⟩
    (Xhs.bumped wEnvFeed.now wStMiss) ⟨1, 0, 0, []⟩ (by decide) (by decide)
    rfl rfl (by decide)

/-- Claim C9: when the tool invocation succeeds with a non-error result that
normalises to a post with empty caption and no images, `getPost` still
resolves successfully with that post — emptiness alone never fails the
operation (the source only logs a warning). -/
theorem C9_empty_post_resolves (env : Xhs.Env) (st : Xhs.ClientState)
    (u tn : Str) (fa : Xhs.FeedArgs) (st1 : Xhs.ClientState) (r2 : Xhs.Run)
    (tr : Json) (r3 : Xhs.Run)
    (hnd : (st.cache.map Prod.fst).Nodup)
    (hmiss : Xhs.hasFresh env.now st.cache u = false)
    (hclient : env.getClientErr 0 = none)
    (hres : Xhs.resolveTool env (Xhs.bumped env.now st) ⟨1, 0, 0, []⟩ =
      (.ok tn, st1, r2))
    (hfeed : tn = S "get_feed_detail" →
      Xhs.extractFeedIdAndToken env.parseUrl env.parseQuery
        (env.resolve u) = some fa)
    (hfa0 : tn ≠ S "get_feed_detail" → fa = ⟨[], []⟩)
    (hinv : Xhs.invokeTool env r2 tn (env.resolve u) fa = (.ok tr, r3))
    (hnoerr : truthy (getField tr (S "isError")) = false)
    (hcap : (Xhs.normalizePost (env.resolve u) (Xhs.rawOfText env tr)).caption = [])
    (himg : (Xhs.normalizePost (env.resolve u) (Xhs.rawOfText env tr)).images = []) :
    (Xhs.getPost env st u).1 =
      .ok (Xhs.normalizePost (env.resolve u) (Xhs.rawOfText env tr)) := by
  rw [Xhs.getPost_miss env st u hnd hmiss]
  unfold Xhs.fetchPath
  have hdg : Xhs.doGetClient env ⟨0, 0, 0, []⟩ = (none, ⟨1, 0, 0, []⟩) := by
    unfold Xhs.doGetClient
    rw [hclient]
  simp only [hdg, hres]
  have hafter : (Xhs.afterInvoke env st1 u (env.resolve u) tn tr r3).1 =
      .ok (Xhs.normalizePost (env.resolve u) (Xhs.rawOfText env tr)) := by
    unfold Xhs.afterInvoke
    rw [if_neg (by rw [hnoerr]; exact Bool.false_ne_true)]
    rw [Xhs.finishPost_eq]
  by_cases htn : tn = S "get_feed_detail"
  · subst htn
    rw [if_pos rfl]
    simp only [hfeed rfl]
    unfold Xhs.invokePhase
    simp only [hinv]
    exact hafter
  · rw [if_neg htn]
    unfold Xhs.invokePhase
    rw [← hfa0 htn]
    simp only [hinv]
    exact hafter

/-- Witness for C9: a concrete empty tool result still yields a post. -/
theorem C9_empty_post_resolves_witness :
    (Xhs.getPost wEnvEmpty wStMiss (S "u")).1 =
      .ok (Xhs.normalizePost (S "u") (Xhs.rawOfText wEnvEmpty (Json.obj .nil))) :=
  C9_empty_post_resolves wEnvEmpty wStMiss (S "u") (S "getContent") ⟨[], []⟩
    (Xhs.bumped wEnvEmpty.now wStMiss) ⟨1, 0, 0, []⟩ (Json.obj .nil)
    ⟨1, 0, 1, [⟨S "getContent", [(S "url", Xhs.ArgVal.s (S "u"))]⟩]⟩
    (by decide) (by decide) rfl rfl
    (fun h => absurd h (by decide)) (fun _ => rfl) rfl rfl (by decide) (by decide)

/-- Claim C6: when a URL-based tool call (made with a redirect-resolved URL
that differs from the originally requested one) reports a logical error
whose text looks like "not found", `getPost` retries the same tool exactly
once with the original unresolved URL: the complete tool-call log of the run
is the first invocation's calls followed by exactly one invocation of the
candidate-argument cascade for the original URL (between one and four calls,
all to the same tool, all carrying the original URL), and nothing else. -/
theorem C6_retry_original_url (env : Xhs.Env) (st : Xhs.ClientState)
    (u tn : Str) (st1 : Xhs.ClientState) (r2 : Xhs.Run) (tr : Json)
    (r3 : Xhs.Run)
    (hnd : (st.cache.map Prod.fst).Nodup)
    (hmiss : Xhs.hasFresh env.now st.cache u = false)
    (hclient : env.getClientErr 0 = none)
    (hres : Xhs.resolveTool env (Xhs.bumped env.now st) ⟨1, 0, 0, []⟩ =
      (.ok tn, st1, r2))
    (htn : tn ≠ S "get_feed_detail")
    (hfinal : env.resolve u ≠ u)
    (hinv : Xhs.callToolWithFallbackArgs env r2 tn (env.resolve u) = (.ok tr, r3))
    (herr : truthy (getField tr (S "isError")) = true)
    (hnf : Xhs.looksLikeNotFoundError (Xhs.toolErrMsg tr) = true)
    (hclient1 : env.getClientErr r3.nc = none) :
    ∃ t, (Xhs.getPost env st u).2.2 = r3.log ++ t ∧ 1 ≤ t.length ∧
      t.length ≤ 4 ∧
      ∀ c ∈ t, c.name = tn ∧ c.args ∈ Xhs.urlArgCandidates u := by
  rw [Xhs.getPost_miss env st u hnd hmiss]
  unfold Xhs.fetchPath
  have hdg : Xhs.doGetClient env ⟨0, 0, 0, []⟩ = (none, ⟨1, 0, 0, []⟩) := by
    unfold Xhs.doGetClient
    rw [hclient]
  simp only [hdg, hres]
  rw [if_neg htn]
  unfold Xhs.invokePhase
  rw [Xhs.invokeTool_nonfeed env r2 tn (env.resolve u) ⟨[], []⟩ htn]
  simp only [hinv]
  unfold Xhs.afterInvoke
  rw [if_pos herr]
  unfold Xhs.retryOriginalUrl
  rw [if_pos ⟨htn, hfinal, hnf⟩]
  have hdg2 : Xhs.doGetClient env r3 = (none, { r3 with nc := r3.nc + 1 }) := by
    unfold Xhs.doGetClient
    rw [hclient1]
  simp only [hdg2]
  rcases hretry : Xhs.callToolWithFallbackArgs env { r3 with nc := r3.nc + 1 }
    tn u with ⟨res2, rb⟩
  obtain ⟨t, ht, hlen, hne, hmem⟩ :=
    Xhs.callFallbackGo_log env tn (Xhs.urlArgCandidates u)
      { r3 with nc := r3.nc + 1 } none
  rw [show Xhs.callFallbackGo env tn { r3 with nc := r3.nc + 1 } none
    (Xhs.urlArgCandidates u) = (res2, rb) from hretry] at ht
  have hrblog : rb.log = r3.log ++ t := ht
  have hfeedskip : ∀ (trx : Json) (rx : Xhs.Run),
      Xhs.feedFallback env st1 (env.resolve u) tn (Xhs.toolErrMsg tr) trx rx =
        (trx, st1, rx) := by
    intro trx rx
    unfold Xhs.feedFallback
    rw [if_neg (fun hcon => htn hcon.2.1)]
  have hfin : ∀ (trx : Json) (rx : Xhs.Run),
      ((if truthy (getField trx (S "isError")) = true then
          (Except.error (⟨Xhs.toolErrMsg tr ++ S "\n\n" ++ Xhs.notFoundHint⟩ :
            Xhs.JsError), st1, rx.log)
        else Xhs.finishPost env st1 u (env.resolve u) trx rx) :
          Except Xhs.JsError Xhs.Post × Xhs.ClientState × List Xhs.ToolCall).2.2 =
        rx.log := by
    intro trx rx
    split
    · rfl
    · rw [Xhs.finishPost_log]
  have hcne : Xhs.urlArgCandidates u ≠ [] := by
    unfold Xhs.urlArgCandidates
    simp
  refine ⟨t, ?_, hne hcne, hlen, hmem⟩
  cases res2 with
  | ok rr =>
    simp only [hretry]
    rw [hfeedskip, hfin]
    exact hrblog
  | error e =>
    simp only [hretry]
    rw [hfeedskip, hfin]
    exact hrblog

/-- Witness for C6 at a concrete not-found run with a resolved URL. -/
theorem C6_retry_original_url_witness :
    ∃ t, (Xhs.getPost wEnvRetry wStMiss (S "u")).2.2 =
      [Xhs.ToolCall.mk (S "getContent")
        [(S "url", Xhs.ArgVal.s (S "https://resolved"))]] ++ t ∧
      1 ≤ t.length ∧ t.length ≤ 4 ∧
      ∀ c ∈ t, c.name = S "getContent" ∧
        c.args ∈ Xhs.urlArgCandidates (S "u") :=
  C6_retry_original_url wEnvRetry wStMiss (S "u") (S "getContent")
    (Xhs.bumped wEnvRetry.now wStMiss) ⟨1, 0, 0, []⟩ wErrResult
    ⟨1, 0, 1, [⟨S "getContent", [(S "url", Xhs.ArgVal.s (S "https://resolved"))]⟩]⟩
    (by decide) (by decide) rfl rfl (by decide) (by decide) rfl (by decide)
    (by decide) rfl

/-! ## Claims C4 and C5: the completion client -/

namespace OpenAIC

theorem withRetryGo_length {α : Type} (fn : Nat → Except ApiError α)
    (base : Nat) : ∀ rem idx, (withRetryGo fn base rem idx).2.length ≤ rem := by
  intro rem
  induction rem with
  | zero =>
    intro idx
    unfold withRetryGo
    cases fn idx <;> simp
  | succ r ih =>
    intro idx
    unfold withRetryGo
    cases hfn : fn idx with
    | ok a => simp [hfn]
    | error e =>
      simp only [hfn]
      by_cases hr : retryableStatus e = true
      · rw [if_pos hr]
        rcases hgo : withRetryGo fn base r (idx + 1) with ⟨res, ds⟩
        simp only [hgo]
        have := ih (idx + 1)
        rw [hgo] at this
        simpa using Nat.succ_le_succ this
      · rw [if_neg hr]
        simp

theorem withRetryGo_delays {α : Type} (fn : Nat → Except ApiError α)
    (base : Nat) : ∀ rem idx, (withRetryGo fn base rem idx).2 =
      (List.range (withRetryGo fn base rem idx).2.length).map
        (fun k => min (base * 2 ^ (idx + k)) 1500) := by
  intro rem
  induction rem with
  | zero =>
    intro idx
    unfold withRetryGo
    cases fn idx <;> simp
  | succ r ih =>
    intro idx
    unfold withRetryGo
    cases hfn : fn idx with
    | ok a => simp [hfn]
    | error e =>
      simp only [hfn]
      by_cases hr : retryableStatus e = true
      · rw [if_pos hr]
        rcases hgo : withRetryGo fn base r (idx + 1) with ⟨res, ds⟩
        simp only [hgo]
        have hds := ih (idx + 1)
        rw [hgo] at hds
        simp only [] at hds ⊢
        rw [hds]
        simp only [List.length_cons, List.length_map, List.length_range]
        rw [List.range_succ_eq_map]
        simp only [List.map_cons, List.map_map]
        congr 1
        apply List.map_congr_left
        intro k _
        simp only [Function.comp_apply]
        rw [show idx + 1 + k = idx + (k + 1) by omega]
      · rw [if_neg hr]
        simp

theorem withRetryGo_retryable {α : Type} (fn : Nat → Except ApiError α)
    (base : Nat) : ∀ rem idx k, k < (withRetryGo fn base rem idx).2.length →
      ∃ e, fn (idx + k) = .error e ∧ retryableStatus e = true := by
  intro rem
  induction rem with
  | zero =>
    intro idx k hk
    unfold withRetryGo at hk
    cases hfn : fn idx <;> simp only [hfn] at hk <;> simp at hk
  | succ r ih =>
    intro idx k hk
    unfold withRetryGo at hk
    cases hfn : fn idx with
    | ok a => simp only [hfn] at hk; simp at hk
    | error e =>
      simp only [hfn] at hk
      by_cases hr : retryableStatus e = true
      · rw [if_pos hr] at hk
        rcases hgo : withRetryGo fn base r (idx + 1) with ⟨res, ds⟩
        simp only [hgo] at hk
        simp only [List.length_cons] at hk
        have hk2 : k < ds.length + 1 := hk
        cases k with
        | zero => exact ⟨e, by simpa using hfn, hr⟩
        | succ j =>
          obtain ⟨e', he', hr'⟩ := ih (idx + 1) j
            (by rw [hgo]; show j < ds.length; omega)
          exact ⟨e', by rw [show idx + (j + 1) = idx + 1 + j by omega]; exact he', hr'⟩
      · rw [if_neg hr] at hk
        simp at hk

/-- Claim C4: `generateRecipeMarkdown` is its attempt body wrapped in
`withRetry` with 2 retries and base delay 800ms; the wrapper makes at most
two retries (three attempts), every retry is preceded by an error whose
effective HTTP status is 429 or in 500–599, the backoff delays follow the
exponential schedule `min(800·2^k, 1500)` (hence are capped at 1500ms), and
a first-attempt error with any other or absent status propagates immediately
with no retry. -/
theorem C4_retry_policy (env : CEnv) (model sys user : Str)
    (imgs : List Str) :
    generateRecipeMarkdown env model sys user imgs =
      withRetry (grmAttempt env model sys user imgs) 2 800 ∧
    (∀ fn : Nat → Except ApiError Str, (withRetry fn 2 800).2.length ≤ 2) ∧
    (∀ (fn : Nat → Except ApiError Str) (e : ApiError), fn 0 = .error e →
      retryableStatus e = false → withRetry fn 2 800 = (.error e, [])) ∧
    (∀ fn : Nat → Except ApiError Str, (withRetry fn 2 800).2 =
      (List.range (withRetry fn 2 800).2.length).map
        (fun k => min (800 * 2 ^ k) 1500)) ∧
    (∀ (fn : Nat → Except ApiError Str) (d : Nat),
      d ∈ (withRetry fn 2 800).2 → d ≤ 1500) ∧
    (∀ (fn : Nat → Except ApiError Str) (k : Nat),
      k < (withRetry fn 2 800).2.length →
        ∃ e, fn k = .error e ∧ retryableStatus e = true) ∧
    (∀ e : ApiError, retryableStatus e = true ↔
      (effStatus e = some 429 ∨ ∃ s, effStatus e = some s ∧ 500 ≤ s ∧ s ≤ 599)) := by
  refine ⟨rfl, ?_, ?_, ?_, ?_, ?_, ?_⟩
  · intro fn
    exact withRetryGo_length fn 800 2 0
  · intro fn e hfn hr
    unfold withRetry withRetryGo
    simp only [hfn]
    rw [if_neg (by rw [hr]; exact Bool.false_ne_true)]
  · intro fn
    have := withRetryGo_delays fn 800 2 0
    simpa using this
  · intro fn d hd
    have hdl := withRetryGo_delays fn 800 2 0
    unfold withRetry at hd
    rw [hdl] at hd
    obtain ⟨k, _, hk⟩ := List.mem_map.mp hd
    omega
  · intro fn k hk
    have := withRetryGo_retryable fn 800 2 0 k hk
    simpa using this
  · intro e
    unfold retryableStatus
    cases hs : effStatus e with
    | none => simp
    | some s =>
      simp only [Bool.or_eq_true, Bool.and_eq_true, decide_eq_true_eq,
        Option.some.injEq]
      constructor
      · rintro (h | ⟨h1, h2⟩)
        · exact Or.inl (by omega)
        · exact Or.inr ⟨s, rfl, h1, h2⟩
      · rintro (h | ⟨s', hs', h1, h2⟩)
        · exact Or.inl (by omega)
        · exact Or.inr (by omega)

/-- Witness for C4: a 403 error on the first attempt propagates with no
retry and no backoff delay. -/
theorem C4_retry_policy_witness :
    withRetry (fun _ => (.error ⟨some 403, none, []⟩ : Except ApiError Str))
      2 800 = (.error ⟨some 403, none, []⟩, []) :=
  (C4_retry_policy wCEnv (S "gpt-4o-mini") [] [] []).2.2.1
    (fun _ => .error ⟨some 403, none, []⟩) ⟨some 403, none, []⟩ rfl (by decide)

end OpenAIC

/-! ## Claim C5: the structured-response (Responses API) cascade -/

namespace OpenAIC

theorem gvrGo_log_length (oracle : Nat → RespReq → Except ApiError RespResult)
    (model sys user : Str) (imgs : List Str) :
    ∀ (vs : List (Option Nat)) (idx : Nat) (le : Option ApiError),
      (gvrGo oracle model sys user imgs idx vs le).2.length ≤ vs.length := by
  intro vs
  induction vs with
  | nil =>
    intro idx le
    simp [gvrGo]
  | cons v rest ih =>
    intro idx le
    unfold gvrGo
    cases ho : gvrOutcome oracle idx ⟨model, sys, user, gvrAttachments imgs, v⟩ with
    | ok out => simp [ho]
    | error err =>
      simp only [ho]
      split
      · rcases hgo : gvrGo oracle model sys user imgs (idx + 1) rest (some err)
          with ⟨r, log⟩
        have := ih (idx + 1) (some err)
        rw [hgo] at this
        simpa using Nat.succ_le_succ this
      · simp

theorem gvrGo_requests (oracle : Nat → RespReq → Except ApiError RespResult)
    (model sys user : Str) (imgs : List Str) :
    ∀ (vs : List (Option Nat)) (idx : Nat) (le : Option ApiError)
      (req : RespReq), req ∈ (gvrGo oracle model sys user imgs idx vs le).2 →
        req.model = model ∧ req.instructions = sys ∧ req.userText = user ∧
          req.attachments = gvrAttachments imgs ∧ req.maxOutputTokens ∈ vs := by
  intro vs
  induction vs with
  | nil =>
    intro idx le req h
    simp [gvrGo] at h
  | cons v rest ih =>
    intro idx le req h
    unfold gvrGo at h
    cases ho : gvrOutcome oracle idx ⟨model, sys, user, gvrAttachments imgs, v⟩ with
    | ok out =>
      simp only [ho] at h
      simp only [List.mem_singleton] at h
      rw [h]
      exact ⟨rfl, rfl, rfl, rfl, by simp⟩
    | error err =>
      simp only [ho] at h
      split at h
      · rcases hgo : gvrGo oracle model sys user imgs (idx + 1) rest (some err)
          with ⟨r, log⟩
        rw [hgo] at h
        simp only [] at h
        rcases List.mem_cons.mp h with hh | hh
        · rw [hh]
          exact ⟨rfl, rfl, rfl, rfl, by simp⟩
        · obtain ⟨h1, h2, h3, h4, h5⟩ := ih (idx + 1) (some err) req (by rw [hgo]; exact hh)
          exact ⟨h1, h2, h3, h4, List.mem_cons_of_mem _ h5⟩
      · simp only [List.mem_singleton] at h
        rw [h]
        exact ⟨rfl, rfl, rfl, rfl, by simp⟩

/-- Claim C5 (amended): for `gpt-5*` models `generateRecipeMarkdown`
dispatches to `generateViaResponses`, whose cascade tries exactly the two
parameter variants `{max_output_tokens: 1800}` then `{}` (there is no
reasoning-effort variation), always with the single plain-URL image
encoding; it stops at the first variant returning non-blank text, advances
to the next variant only on a 400 "Unsupported … max_output_tokens" error,
and any other failure (including blank output and refusals) propagates
immediately. -/
theorem C5_responses_cascade (env : CEnv) (model sys user : Str)
    (imgs : List Str) (attempt : Nat) :
    (isGpt5 model = true → grmAttempt env model sys user imgs attempt =
      (generateViaResponses (env.respond attempt) model sys user imgs).1) ∧
    (∀ (oracle : Nat → RespReq → Except ApiError RespResult)
      (req : RespReq), req ∈ (generateViaResponses oracle model sys user imgs).2 →
        req.model = model ∧ req.attachments = gvrAttachments imgs ∧
          (req.maxOutputTokens = some 1800 ∨ req.maxOutputTokens = none)) ∧
    (∀ a ∈ gvrAttachments imgs, ∃ u, a = ImgAttach.plainUrl u (S "high")) ∧
    (∀ (oracle : Nat → RespReq → Except ApiError RespResult) (out : Str),
      gvrOutcome oracle 0 ⟨model, sys, user, gvrAttachments imgs, some 1800⟩ =
          .ok out →
        generateViaResponses oracle model sys user imgs =
          (.ok out, [⟨model, sys, user, gvrAttachments imgs, some 1800⟩])) ∧
    (∀ (oracle : Nat → RespReq → Except ApiError RespResult) (e : ApiError),
      gvrOutcome oracle 0 ⟨model, sys, user, gvrAttachments imgs, some 1800⟩ =
          .error e →
        ¬ (effStatus e = some 400 ∧
            isUnsupportedParamError e (S "max_output_tokens") = true) →
        generateViaResponses oracle model sys user imgs =
          (.error e, [⟨model, sys, user, gvrAttachments imgs, some 1800⟩])) ∧
    (∀ (oracle : Nat → RespReq → Except ApiError RespResult) (e : ApiError),
      gvrOutcome oracle 0 ⟨model, sys, user, gvrAttachments imgs, some 1800⟩ =
          .error e →
        effStatus e = some 400 ∧
          isUnsupportedParamError e (S "max_output_tokens") = true →
        ∃ r log1, generateViaResponses oracle model sys user imgs =
          (r, ⟨model, sys, user, gvrAttachments imgs, some 1800⟩ :: log1) ∧
          log1.length ≤ 1 ∧ ∀ q ∈ log1, q.maxOutputTokens = none) := by
  refine ⟨?_, ?_, ?_, ?_, ?_, ?_⟩
  · intro h
    unfold grmAttempt
    rw [if_pos h]
  · intro oracle req h
    obtain ⟨h1, _, _, h4, h5⟩ := gvrGo_requests oracle model sys user imgs
      respVariants 0 none req h
    refine ⟨h1, h4, ?_⟩
    simpa [respVariants] using h5
  · intro a ha
    obtain ⟨u, _, hu⟩ := List.mem_map.mp ha
    exact ⟨u, hu.symm⟩
  · intro oracle out h
    unfold generateViaResponses respVariants gvrGo
    simp only [h]
  · intro oracle e h hno
    unfold generateViaResponses respVariants gvrGo
    simp only [h]
    rw [if_neg hno]
  · intro oracle e h hyes
    unfold generateViaResponses respVariants
    unfold gvrGo
    simp only [h]
    rw [if_pos hyes]
    rcases hgo : gvrGo oracle model sys user imgs 1 [none] (some e) with ⟨r, log⟩
    refine ⟨r, log, by simp, ?_, ?_⟩
    · have := gvrGo_log_length oracle model sys user imgs [none] 1 (some e)
      rw [hgo] at this
      simpa using this
    · intro q hq
      have := (gvrGo_requests oracle model sys user imgs [none] 1 (some e) q
        (by rw [hgo]; exact hq)).2.2.2.2
      simpa using this

/-- Witness for the amended C5: a first-variant success returns immediately
with exactly one plain-encoded request. -/
theorem C5_responses_cascade_witness :
    generateViaResponses wOracleOk (S "gpt-5") (S "s") (S "u") [] =
      (.ok (S "recipe"), [⟨S "gpt-5", S "s", S "u", gvrAttachments [], some 1800⟩]) :=
  (C5_responses_cascade wCEnv (S "gpt-5") (S "s") (S "u") [] 0).2.2.2.1
    wOracleOk (S "recipe") rfl

/-- Counterexample to claim C5 as stated: with an endpoint that rejects
every request with a 400 "Unsupported parameter: max_output_tokens" error,
the `gpt-5` structured-response cascade issues exactly two requests — the
parameter variants `{max_output_tokens: 1800}` and `{}` — and then fails.
No request carries a wrapped-object image attachment (every attachment is
the plain-URL encoding) and no reasoning-effort parameter variant exists,
so the cascade is not a crossing of parameter variants with two
image-attachment encodings. -/
theorem C5_counterexample :
    (generateViaResponses wOracleUnsupported (S "gpt-5") (S "sys") (S "usr")
        [S "data:image/png;base64,AA"]).1 = .error wUnsupportedErr ∧
    (generateViaResponses wOracleUnsupported (S "gpt-5") (S "sys") (S "usr")
        [S "data:image/png;base64,AA"]).2.map RespReq.maxOutputTokens =
      [some 1800, none] ∧
    ((generateViaResponses wOracleUnsupported (S "gpt-5") (S "sys") (S "usr")
        [S "data:image/png;base64,AA"]).2.all (fun req =>
          req.attachments.all (fun a =>
            match a with
            | ImgAttach.plainUrl _ _ => true
            | ImgAttach.wrapped _ _ => false))) = true := by
  refine ⟨rfl, rfl, rfl⟩

end OpenAIC

/-! ## Claims C7 and C8: launcher coalescing and connection sequencing -/

namespace Launcher

theorem spawnCount_nil : spawnCount [] = 0 := rfl

theorem spawnCount_stopChildM (st : LState) (r : Str) :
    spawnCount (stopChildM st r).2 = 0 := by
  unfold stopChildM
  split
  · rfl
  · rfl

theorem startupWait_events (env : LEnv) (st : LState) (evs : List LEvent) :
    (startupWait env st evs).2.2 = evs := by
  unfold startupWait
  split
  · rfl
  · rfl

theorem spawnCount_snoc_spawn (evs : List LEvent) (e : Str) :
    spawnCount (evs ++ [LEvent.spawnChild e]) = spawnCount evs + 1 := by
  simp [spawnCount, List.filter_append]

theorem spawnPhase_count (env : LEnv) (st : LState) (evs : List LEvent) :
    spawnCount (spawnPhase env st evs).2.2 ≤ spawnCount evs + 1 := by
  unfold spawnPhase
  split
  · rw [startupWait_events]
    exact Nat.le_succ _
  · split
    · rw [startupWait_events, spawnCount_snoc_spawn]
    · show spawnCount (evs ++ [LEvent.spawnChild (trimStr env.cfg.exePath)]) ≤ _
      rw [spawnCount_snoc_spawn]

theorem ensureBody_spawnCount (env : LEnv) (st : LState) :
    spawnCount (ensureBody env st).2.2 ≤ 1 := by
  unfold ensureBody
  split
  · exact Nat.le_succ 0
  · split
    · rw [spawnCount_stopChildM]
      exact Nat.le_succ 0
    · split
      · exact Nat.le_succ 0
      · split
        · rw [spawnCount_stopChildM]
          exact Nat.le_succ 0
        · split
          · exact Nat.le_succ 0
          · split
            · split
              · exact Nat.le_succ 0
              · rw [spawnCount_stopChildM]
                exact Nat.le_succ 0
            · split
              · calc spawnCount (spawnPhase env (stopChildM st (S "exePath changed")).1
                    (stopChildM st (S "exePath changed")).2).2.2
                    ≤ spawnCount (stopChildM st (S "exePath changed")).2 + 1 :=
                      spawnPhase_count _ _ _
                  _ = 1 := by rw [spawnCount_stopChildM]
              · calc spawnCount (spawnPhase env st []).2.2
                    ≤ spawnCount ([] : List LEvent) + 1 := spawnPhase_count _ _ _
                  _ = 1 := rfl

/-- Claim C7: `ensureStarted` calls are coalesced. A call made while an
`ensurePromise` is in flight returns that same promise unchanged and starts
no new body; a call on an idle launcher starts one body, and a second call
made while it is in flight returns the first call's promise without
starting another; a single body run emits at most one `spawn`, so two
concurrent calls spawn at most one child process. -/
theorem C7_ensureStarted_coalesced :
    (∀ (L : Launcher) (p : Nat), L.ls.ensurePromise = some p →
      ensureStartedCall L = (p, L, false)) ∧
    (∀ (env : LEnv) (st : LState),
      spawnCount (ensureBody env st).2.2 ≤ 1) ∧
    (∀ (L L1 : Launcher) (p1 : Nat) (b1 : Bool),
      L.ls.ensurePromise = none →
      ensureStartedCall L = (p1, L1, b1) →
      b1 = true ∧ ensureStartedCall L1 = (p1, L1, false)) := by
  refine ⟨?_, ?_, ?_⟩
  · intro L p h
    simp [ensureStartedCall, h]
  · intro env st
    exact ensureBody_spawnCount env st
  · intro L L1 p1 b1 h hcall
    simp only [ensureStartedCall, h] at hcall
    injection hcall with h1 h2
    injection h2 with h2 h3
    subst h1
    subst h2
    subst h3
    exact ⟨rfl, rfl⟩

/-- Witness for C7: a busy launcher returns its in-flight promise 3
unchanged; a concrete body run spawns at most once; the second of two
back-to-back calls on an idle launcher returns the first call's promise
without starting a body. -/
theorem C7_ensureStarted_coalesced_witness :
    ensureStartedCall wLauncherBusy = (3, wLauncherBusy, false) ∧
    spawnCount (ensureBody wLEnv wLState).2.2 ≤ 1 ∧
    ensureStartedCall ⟨⟨false, none, some 5⟩, 6⟩ =
      (5, ⟨⟨false, none, some 5⟩, 6⟩, false) :=
  ⟨C7_ensureStarted_coalesced.1 wLauncherBusy 3 rfl,
    C7_ensureStarted_coalesced.2.1 wLEnv wLState,
    (C7_ensureStarted_coalesced.2.2 wLauncherIdle ⟨⟨false, none, some 5⟩, 6⟩
      5 true rfl rfl).2⟩

end Launcher

namespace Xhs

/-- Claim C8: every `disconnect` increments `connectSeq` and clears the
installed connection; a connect attempt resuming under a stale sequence
number closes the transport it opened and throws without touching the
state, while one resuming under the current sequence number installs its
transport; consequently a connect attempt that returns successfully was
started under the (still) current sequence number. -/
theorem C8_connect_sequence (cs : ConnState) (startSeq tid : Nat) (key : Str) :
    ((disconnectM cs).1.connectSeq = cs.connectSeq + 1 ∧
      (disconnectM cs).1.connected = none ∧
      (disconnectM cs).1.detectedToolName = none ∧
      (disconnectM cs).1.connectedKey = none) ∧
    (startSeq ≠ cs.connectSeq →
      connectFinish startSeq tid key cs =
        (.error ⟨S "MCP connection was reset during connect"⟩, cs,
          [ConnEvent.closeTransport tid])) ∧
    (startSeq = cs.connectSeq →
      connectFinish startSeq tid key cs =
        (.ok tid,
          { cs with connected := some tid, connectedKey := some key }, [])) ∧
    (∀ r, (connectFinish startSeq tid key cs).1 = .ok r →
      startSeq = cs.connectSeq ∧
        (connectFinish startSeq tid key cs).2.1.connected = some tid) := by
  refine ⟨⟨rfl, rfl, rfl, rfl⟩, ?_, ?_, ?_⟩
  · intro h
    unfold connectFinish
    rw [if_pos h]
  · intro h
    unfold connectFinish
    rw [if_neg (not_not_intro h)]
  · intro r h
    by_cases hs : startSeq = cs.connectSeq
    · refine ⟨hs, ?_⟩
      unfold connectFinish
      rw [if_neg (not_not_intro hs)]
    · exfalso
      unfold connectFinish at h
      rw [if_pos hs] at h
      exact Except.noConfusion h

/-- Witness for C8: on a state with sequence number 2 and transport 4
installed, `disconnect` bumps the sequence to 3; a connect attempt started
under sequence 1 is discarded (its transport 9 closed, the state left
untouched), while one started under sequence 2 installs transport 9. -/
theorem C8_connect_sequence_witness :
    (disconnectM wConnSt).1.connectSeq = 3 ∧
    connectFinish 1 9 (S "k") wConnSt =
      (.error ⟨S "MCP connection was reset during connect"⟩, wConnSt,
        [ConnEvent.closeTransport 9]) ∧
    connectFinish 2 9 (S "k") wConnSt =
      (.ok 9, { wConnSt with connected := some 9, connectedKey := some (S "k") },
        []) :=
  ⟨(C8_connect_sequence wConnSt 1 9 (S "k")).1.1,
    (C8_connect_sequence wConnSt 1 9 (S "k")).2.1 (by decide),
    (C8_connect_sequence wConnSt 2 9 (S "k")).2.2.1 rfl⟩

end Xhs
